import Mathlib

/-!
# goalloc: typed views over raw memory blocks

A shallow embedding of `alloc.go` and `cgo.go` (package `goalloc`).

* Go `int` values are modelled as `Int`; the operations of the package that
  can leave the `int` range are reduced with `wrapInt`: the product in
  `AllocArray`, and the conversions `int(x)` of a `uintptr` type size in
  `Load` and `ToInterface` (`toInt`).  Go's `/` on `int` is truncated
  division, `Int.tdiv`.
* Addresses (`unsafe.Pointer`, `uintptr`) are natural numbers, `0` is `nil`.
* The C allocator behind cgo is external: it is a parameter `Libc` whose
  answers may depend on the whole history of calls, and every call made
  through `alloc`, `free`, `realloc` is appended to a call log.
* `reflect` is external as well: a `reflect.Type` is an `RType`, a
  `reflect.Value` is a `Value`; only what the package asks of them
  (`Kind`, `Elem`, `Size`, `Cap`, `Pointer`, the string header) is modelled.
* Methods that mutate their receiver return the new receiver.
-/

namespace Goalloc

/-! ## Errors and results -/

/-- The error values declared in alloc.go (lines 9-14) and cgo.go (line 11). -/
inductive Error where
  | AlreadyFreed
  | SmallSize
  | LoadError
  | GCManaged
  | NotAPointer
  | UnsupportedValue
  | AllocationFailed
  deriving DecidableEq, Repr

/-- Result of a Go function returning `(value, error)` that may also stop with
a run-time panic (nil dereference inside `reflect`, integer division by zero). -/
inductive Outcome (α : Type) where
  | ok (v : α)
  | err (e : Error)
  | panic
  deriving DecidableEq, Repr

/-- An `(value, error)` result that cannot panic, seen as an `Outcome`. -/
def Outcome.ofExcept {α : Type} : Except Error α → Outcome α
  | .ok v => .ok v
  | .error e => .err e

/-! ## Platform -/

/-- The two word sizes Go supports: `int`, `uint`, `uintptr`, pointers and the
C `size_t` are 4 bytes wide on one and 8 bytes wide on the other. -/
inductive Arch where
  | bits32
  | bits64
  deriving DecidableEq, Repr

/-- Bytes in a machine word. -/
def Arch.wordSize : Arch → Nat
  | .bits32 => 4
  | .bits64 => 8

/-- Bits in a machine word. -/
def Arch.bits (a : Arch) : Nat := 8 * a.wordSize

/-- Smallest value of Go `int`. -/
def Arch.minInt (a : Arch) : Int := -(2 : Int) ^ (a.bits - 1)

/-- Largest value of Go `int`. -/
def Arch.maxInt (a : Arch) : Int := (2 : Int) ^ (a.bits - 1) - 1

/-- Reduction of a mathematical integer to Go `int` (two's complement). -/
def wrapInt (a : Arch) (x : Int) : Int :=
  (x + (2 : Int) ^ (a.bits - 1)) % (2 : Int) ^ a.bits - (2 : Int) ^ (a.bits - 1)

/-- The conversion `int(x)` of a `uintptr`, as applied to `Type.Size()`. -/
def toInt (a : Arch) (n : Nat) : Int := wrapInt a (n : Int)

/-- The conversion `C.size_t(size)` of a Go `int`. -/
def toSizeT (a : Arch) (x : Int) : Nat := (x % (2 : Int) ^ a.bits).toNat

/-! ## reflect: kinds, types, values -/

/-- The kinds of `reflect.Kind`. -/
inductive Kind where
  | Invalid | Bool
  | Int | Int8 | Int16 | Int32 | Int64
  | Uint | Uint8 | Uint16 | Uint32 | Uint64 | Uintptr
  | Float32 | Float64 | Complex64 | Complex128
  | Array | Chan | Func | Interface | Map | Ptr | Slice | String | Struct
  | UnsafePointer
  deriving DecidableEq, Repr

/-- The Go types without components: booleans, numbers and `unsafe.Pointer`. -/
inductive Scalar where
  | Bool
  | Int | Int8 | Int16 | Int32 | Int64
  | Uint | Uint8 | Uint16 | Uint32 | Uint64 | Uintptr
  | Float32 | Float64 | Complex64 | Complex128
  | UnsafePointer
  deriving DecidableEq, Repr

/-- Kind of a scalar type. -/
def Scalar.Kind : Scalar → Kind
  | .Bool => .Bool
  | .Int => .Int | .Int8 => .Int8 | .Int16 => .Int16 | .Int32 => .Int32 | .Int64 => .Int64
  | .Uint => .Uint | .Uint8 => .Uint8 | .Uint16 => .Uint16 | .Uint32 => .Uint32
  | .Uint64 => .Uint64 | .Uintptr => .Uintptr
  | .Float32 => .Float32 | .Float64 => .Float64
  | .Complex64 => .Complex64 | .Complex128 => .Complex128
  | .UnsafePointer => .UnsafePointer

/-- Byte size of a scalar type (`unsafe.Sizeof`). -/
def Scalar.Size (a : Arch) : Scalar → Nat
  | .Bool => 1
  | .Int => a.wordSize | .Int8 => 1 | .Int16 => 2 | .Int32 => 4 | .Int64 => 8
  | .Uint => a.wordSize | .Uint8 => 1 | .Uint16 => 2 | .Uint32 => 4
  | .Uint64 => 8 | .Uintptr => a.wordSize
  | .Float32 => 4 | .Float64 => 8
  | .Complex64 => 8 | .Complex128 => 16
  | .UnsafePointer => a.wordSize

/-- A `reflect.Type`.  A struct type is known by the byte size the compiler
laid out for it, which is all the package asks of it. -/
inductive RType where
  | scalar (s : Scalar)
  | struct (size : Nat)
  | array (len : Nat) (elem : RType)
  | string
  | slice (elem : RType)
  | ptr (elem : RType)
  | chan (elem : RType)
  | map (key : RType) (elem : RType)
  | func
  | iface
  deriving DecidableEq, Repr

/-- The method `Type.Kind()`. -/
def RType.Kind : RType → Kind
  | .scalar s => s.Kind
  | .struct _ => .Struct
  | .array _ _ => .Array
  | .string => .String
  | .slice _ => .Slice
  | .ptr _ => .Ptr
  | .chan _ => .Chan
  | .map _ _ => .Map
  | .func => .Func
  | .iface => .Interface

/-- The method `Type.Size()`: bytes needed to store a value of the type. -/
def RType.Size (a : Arch) : RType → Nat
  | .scalar s => s.Size a
  | .struct size => size
  | .array len elem => len * elem.Size a
  | .string => 2 * a.wordSize
  | .slice _ => 3 * a.wordSize
  | .ptr _ => a.wordSize
  | .chan _ => a.wordSize
  | .map _ _ => a.wordSize
  | .func => a.wordSize
  | .iface => 2 * a.wordSize

/-- The method `Type.Elem()` on the kinds that have an element type. -/
def RType.elemOf : RType → RType
  | .array _ elem => elem
  | .slice elem => elem
  | .ptr elem => elem
  | .chan elem => elem
  | .map _ elem => elem
  | t => t

/-- A `reflect.Value` as `reflect.ValueOf` and `Value.Elem` produce it.
`zero` is the zero Value (`reflect.ValueOf(nil)`, and `Elem()` of a nil
pointer); `ptr addr pointee` is a pointer holding address `addr` whose
`Elem()` is `pointee`, so a nil pointer is `ptr 0 zero`.  Contents of
scalars, structs and arrays are not recorded. -/
inductive Value where
  | zero
  | scalar (s : Scalar)
  | struct (size : Nat)
  | array (len : Nat) (elem : RType)
  | string (data : Nat) (len : Nat)
  | slice (elem : RType) (data : Nat) (len : Nat) (cap : Nat)
  | ptr (addr : Nat) (pointee : Value)
  | chan
  | map
  | func
  | iface
  deriving DecidableEq, Repr

/-- The method `Value.Kind()`. -/
def Value.Kind : Value → Kind
  | .zero => .Invalid
  | .scalar s => s.Kind
  | .struct _ => .Struct
  | .array _ _ => .Array
  | .string _ _ => .String
  | .slice _ _ _ _ => .Slice
  | .ptr _ _ => .Ptr
  | .chan => .Chan
  | .map => .Map
  | .func => .Func
  | .iface => .Interface

/-- The method `Value.Cap()` on the kinds the package calls it on: capacity of
a slice, length of an array. -/
def Value.Cap : Value → Int
  | .slice _ _ _ cap => cap
  | .array len _ => len
  | _ => 0

/-- The method `Value.Pointer()` on the kinds the package calls it on: the data
pointer of a slice, the address held by a pointer. -/
def Value.Pointer : Value → Nat
  | .slice _ data _ _ => data
  | .ptr addr _ => addr
  | _ => 0

/-- The call `val.Type().Size()`; `none` is the panic of `Type()` on the zero
Value. -/
def Value.TypeSize (a : Arch) : Value → Option Nat
  | .zero => none
  | .scalar s => some (s.Size a)
  | .struct size => some size
  | .array len elem => some (len * elem.Size a)
  | .string _ _ => some (2 * a.wordSize)
  | .slice _ _ _ _ => some (3 * a.wordSize)
  | .ptr _ _ => some a.wordSize
  | .chan => some a.wordSize
  | .map => some a.wordSize
  | .func => some a.wordSize
  | .iface => some (2 * a.wordSize)

/-- A `reflect.StringHeader`. -/
structure StringHeader where
  Data : Nat
  Len : Int
  deriving DecidableEq, Repr

/-- The string header stored in a string value. -/
def Value.header : Value → StringHeader
  | .string data len => ⟨data, len⟩
  | _ => ⟨0, 0⟩

/-- The string header read through the address held by a pointer: the header
of the pointee. -/
def Value.headerAt : Value → StringHeader
  | .ptr _ pointee => pointee.header
  | _ => ⟨0, 0⟩

/-- The value a chain of pointers ends at: what is left after `Elem()` has
been taken through every pointer. -/
def Value.strip : Value → Value
  | .ptr _ pointee => pointee.strip
  | v => v

/-- The type a chain of pointer types ends at. -/
def RType.strip : RType → RType
  | .ptr elem => elem.strip
  | t => t

/-- The kinds of line 69 and line 137: channel, map, function, interface. -/
def unsupportedKind : Kind → Bool
  | .Chan => true
  | .Map => true
  | .Func => true
  | .Interface => true
  | _ => false

/-! ## cgo.go: the allocator boundary -/

/-- A call into the C allocator. -/
inductive Call where
  | calloc (nmemb : Nat) (size : Nat)
  | free (p : Nat)
  | realloc (p : Nat) (size : Nat)
  deriving DecidableEq, Repr

/-- The C allocator: what `calloc` and `realloc` answer (`0` is `NULL`) after
a given history of calls. -/
structure Libc where
  calloc : List Call → Nat → Nat → Nat
  realloc : List Call → Nat → Nat → Nat

/-- The function `alloc` of cgo.go (lines 13-19). -/
def alloc (c : Libc) (a : Arch) (log : List Call) (size : Int) :
    Except Error Nat × List Call :=
  let p := c.calloc log (toSizeT a size) 1
  let log1 := log ++ [Call.calloc (toSizeT a size) 1]
  if p = 0 then (.error .AllocationFailed, log1) else (.ok p, log1)

/-- The function `free` of cgo.go (lines 21-23). -/
def free (log : List Call) (ptr : Nat) : List Call :=
  log ++ [Call.free ptr]

/-- The function `realloc` of cgo.go (lines 25-31). -/
def realloc (c : Libc) (a : Arch) (log : List Call) (ptr : Nat) (size : Int) :
    Except Error Nat × List Call :=
  let p := c.realloc log ptr (toSizeT a size)
  let log1 := log ++ [Call.realloc ptr (toSizeT a size)]
  if p = 0 then (.error .AllocationFailed, log1) else (.ok p, log1)

/-! ## alloc.go: the block -/

/-- The package variable `intSize` (line 16). -/
def intSize (a : Arch) : Int := (RType.scalar Scalar.Int).Size a

/-- The struct `MemBlock` (lines 18-23). -/
structure MemBlock where
  size : Int
  freed : Bool
  gcmanaged : Bool
  ptr : Nat
  deriving DecidableEq, Repr

/-- The function `Alloc` (lines 25-31). -/
def Alloc (c : Libc) (a : Arch) (log : List Call) (size : Int) :
    Except Error MemBlock × List Call :=
  match alloc c a log size with
  | (.error err, log1) => (.error err, log1)
  | (.ok ptr, log1) => (.ok ⟨size, false, false, ptr⟩, log1)

/-- The function `AllocArray` (lines 33-40).  `typ = none` is a nil exemplar,
for which `reflect.TypeOf` is nil and `.Size()` panics.  The conversion
`int(...)` of the type size is absorbed by the reduction of the product
(`wrapInt_mul_toInt`). -/
def AllocArray (c : Libc) (a : Arch) (log : List Call) (typ : Option RType) (size : Int) :
    Outcome MemBlock × List Call :=
  match typ with
  | none => (.panic, log)
  | some t =>
    let finalSize := wrapInt a (size * (t.Size a : Int))
    match alloc c a log finalSize with
    | (.error err, log1) => (.err err, log1)
    | (.ok ptr, log1) => (.ok ⟨finalSize, false, false, ptr⟩, log1)

/-- The default case of the switch in `Load` (lines 71-75). -/
def LoadDefault (a : Arch) (prev val : Value) : Outcome MemBlock :=
  if prev.Kind ≠ Kind.Ptr then .err .NotAPointer
  else
    match val.TypeSize a with
    | none => .panic
    | some n => .ok ⟨toInt a n, false, true, prev.Pointer⟩

/-- The labelled switch of `Load` (lines 47-76), entered with the current
`prev` and `val`; the `goto Switch` of the pointer case is the recursive
call. -/
def LoadSwitch (a : Arch) : Value → Value → Outcome MemBlock
  | _, .slice elem data len cap =>
    .ok ⟨(Value.slice elem data len cap).Cap, false, true, (Value.slice elem data len cap).Pointer⟩
  | prev, .array len elem =>
    if prev.Kind ≠ Kind.Ptr then .err .NotAPointer
    else .ok ⟨(Value.array len elem).Cap, false, true, prev.Pointer⟩
  | _, .ptr addr pointee => LoadSwitch a (.ptr addr pointee) pointee
  | prev, .string data len =>
    let header : StringHeader :=
      if prev.Kind ≠ Kind.Ptr then (Value.string data len).header else prev.headerAt
    .ok ⟨header.Len, false, true, header.Data⟩
  | _, .chan => .err .UnsupportedValue
  | _, .map => .err .UnsupportedValue
  | _, .func => .err .UnsupportedValue
  | _, .iface => .err .UnsupportedValue
  | prev, .zero => LoadDefault a prev .zero
  | prev, .scalar s => LoadDefault a prev (.scalar s)
  | prev, .struct size => LoadDefault a prev (.struct size)

/-- The function `Load` (lines 42-77): `val` is `reflect.ValueOf(data)` and
`prev` starts as `reflect.ValueOf(nil)`. -/
def Load (a : Arch) (val : Value) : Outcome MemBlock :=
  LoadSwitch a .zero val

/-- The method `Size` (lines 79-81). -/
def MemBlock.Size (this : MemBlock) : Int := this.size

/-- The method `IsGCManaged` (lines 83-85). -/
def MemBlock.IsGCManaged (this : MemBlock) : Bool := this.gcmanaged

/-- The method `WasFreed` (lines 87-89). -/
def MemBlock.WasFreed (this : MemBlock) : Bool := this.freed

/-- The method `Resize` (lines 91-105): the returned error (`none` is `nil`),
the receiver afterwards and the call log afterwards. -/
def MemBlock.Resize (c : Libc) (a : Arch) (log : List Call) (this : MemBlock) (size : Int) :
    Option Error × MemBlock × List Call :=
  if this.freed then (some .AlreadyFreed, this, log)
  else if this.gcmanaged then (some .GCManaged, this, log)
  else
    match realloc c a log this.ptr size with
    | (.error err, log1) => (some err, this, log1)
    | (.ok ptr, log1) => (none, { this with ptr := ptr, size := size }, log1)

/-- The method `Free` (lines 107-113): the receiver afterwards and the call
log afterwards. -/
def MemBlock.Free (log : List Call) (this : MemBlock) : MemBlock × List Call :=
  if this.freed || this.gcmanaged then (this, log)
  else ({ this with freed := true }, free log this.ptr)

/-! ## alloc.go: views -/

/-- A typed pointer `*T` holding an address. -/
structure Pointer where
  elem : RType
  addr : Nat
  deriving DecidableEq, Repr

/-- A slice `[]T` with its `reflect.SliceHeader` fields. -/
structure Slice where
  elem : RType
  Data : Nat
  Len : Int
  Cap : Int
  deriving DecidableEq, Repr

/-- The dynamic value returned by `ToInterface`: a slice or a pointer. -/
inductive View where
  | slice (s : Slice)
  | ptr (p : Pointer)
  deriving DecidableEq, Repr

/-- The labelled switch of `ToInterface` (lines 121-144) on the type `v`; the
`goto Switch` of the pointer case is the recursive call.  The division of
line 124 panics when the element size is zero. -/
def MemBlock.ToInterfaceSwitch (a : Arch) (this : MemBlock) : RType → Outcome View
  | .slice elem =>
    if toInt a ((RType.slice elem).elemOf.Size a) = 0 then .panic
    else
      let sSize := Int.tdiv this.size (toInt a ((RType.slice elem).elemOf.Size a))
      if sSize = 0 then .err .SmallSize
      else .ok (.slice ⟨elem, this.ptr, sSize, sSize⟩)
  | .ptr elem => MemBlock.ToInterfaceSwitch a this elem
  | .chan _ => .err .UnsupportedValue
  | .map _ _ => .err .UnsupportedValue
  | .func => .err .UnsupportedValue
  | .iface => .err .UnsupportedValue
  | .scalar s =>
    if this.size < toInt a ((RType.scalar s).Size a) then .err .SmallSize
    else .ok (.ptr ⟨.scalar s, this.ptr⟩)
  | .struct size =>
    if this.size < toInt a ((RType.struct size).Size a) then .err .SmallSize
    else .ok (.ptr ⟨.struct size, this.ptr⟩)
  | .array len elem =>
    if this.size < toInt a ((RType.array len elem).Size a) then .err .SmallSize
    else .ok (.ptr ⟨.array len elem, this.ptr⟩)
  | .string =>
    if this.size < toInt a (RType.string.Size a) then .err .SmallSize
    else .ok (.ptr ⟨.string, this.ptr⟩)

/-- The method `ToInterface` (lines 115-145).  `typ = none` is a nil exemplar,
for which `reflect.TypeOf` is nil and `v.Kind()` panics. -/
def MemBlock.ToInterface (a : Arch) (this : MemBlock) (typ : Option RType) : Outcome View :=
  if this.freed then .err .AlreadyFreed
  else
    match typ with
    | none => .panic
    | some v => this.ToInterfaceSwitch a v

/-- The method `ToInt` (lines 147-155). -/
def MemBlock.ToInt (a : Arch) (this : MemBlock) : Except Error Pointer :=
  if this.freed then .error .AlreadyFreed
  else if this.size < intSize a then .error .SmallSize
  else .ok ⟨.scalar .Int, this.ptr⟩

/-- The method `ToInt8` (lines 157-165). -/
def MemBlock.ToInt8 (this : MemBlock) : Except Error Pointer :=
  if this.freed then .error .AlreadyFreed
  else if this.size < 1 then .error .SmallSize
  else .ok ⟨.scalar .Int8, this.ptr⟩

/-- The method `ToInt16` (lines 167-175). -/
def MemBlock.ToInt16 (this : MemBlock) : Except Error Pointer :=
  if this.freed then .error .AlreadyFreed
  else if this.size < 2 then .error .SmallSize
  else .ok ⟨.scalar .Int16, this.ptr⟩

/-- The method `ToInt32` (lines 177-185). -/
def MemBlock.ToInt32 (this : MemBlock) : Except Error Pointer :=
  if this.freed then .error .AlreadyFreed
  else if this.size < 4 then .error .SmallSize
  else .ok ⟨.scalar .Int32, this.ptr⟩

/-- The method `ToInt64` (lines 187-195). -/
def MemBlock.ToInt64 (this : MemBlock) : Except Error Pointer :=
  if this.freed then .error .AlreadyFreed
  else if this.size < 8 then .error .SmallSize
  else .ok ⟨.scalar .Int64, this.ptr⟩

/-- The method `ToUInt` (lines 197-205). -/
def MemBlock.ToUInt (a : Arch) (this : MemBlock) : Except Error Pointer :=
  if this.freed then .error .AlreadyFreed
  else if this.size < intSize a then .error .SmallSize
  else .ok ⟨.scalar .Uint, this.ptr⟩

/-- The method `ToUInt8` (lines 207-215). -/
def MemBlock.ToUInt8 (this : MemBlock) : Except Error Pointer :=
  if this.freed then .error .AlreadyFreed
  else if this.size < 1 then .error .SmallSize
  else .ok ⟨.scalar .Uint8, this.ptr⟩

/-- The method `ToByte` (lines 217-225). -/
def MemBlock.ToByte (this : MemBlock) : Except Error Pointer :=
  if this.freed then .error .AlreadyFreed
  else if this.size < 1 then .error .SmallSize
  else .ok ⟨.scalar .Uint8, this.ptr⟩

/-- The method `ToUInt16` (lines 227-235). -/
def MemBlock.ToUInt16 (this : MemBlock) : Except Error Pointer :=
  if this.freed then .error .AlreadyFreed
  else if this.size < 2 then .error .SmallSize
  else .ok ⟨.scalar .Uint16, this.ptr⟩

/-- The method `ToUInt32` (lines 237-245). -/
def MemBlock.ToUInt32 (this : MemBlock) : Except Error Pointer :=
  if this.freed then .error .AlreadyFreed
  else if this.size < 4 then .error .SmallSize
  else .ok ⟨.scalar .Uint32, this.ptr⟩

/-- The method `ToUInt64` (lines 247-255). -/
def MemBlock.ToUInt64 (this : MemBlock) : Except Error Pointer :=
  if this.freed then .error .AlreadyFreed
  else if this.size < 8 then .error .SmallSize
  else .ok ⟨.scalar .Uint64, this.ptr⟩

/-- The method `ToIntSlice` (lines 257-273). -/
def MemBlock.ToIntSlice (a : Arch) (this : MemBlock) : Except Error Slice :=
  if this.freed then .error .AlreadyFreed
  else if this.size < intSize a then .error .SmallSize
  else
    let sSize := Int.tdiv this.size (intSize a)
    .ok ⟨.scalar .Int, this.ptr, sSize, sSize⟩

/-- The method `ToByteSlice` (lines 275-291). -/
def MemBlock.ToByteSlice (this : MemBlock) : Except Error Slice :=
  if this.freed then .error .AlreadyFreed
  else if this.size < 1 then .error .SmallSize
  else
    let sSize := this.size
    .ok ⟨.scalar .Uint8, this.ptr, sSize, sSize⟩

/-- The method `ToInt8Slice` (lines 293-309). -/
def MemBlock.ToInt8Slice (this : MemBlock) : Except Error Slice :=
  if this.freed then .error .AlreadyFreed
  else if this.size < 1 then .error .SmallSize
  else
    let sSize := this.size
    .ok ⟨.scalar .Int8, this.ptr, sSize, sSize⟩

/-- The method `ToInt16Slice` (lines 311-327). -/
def MemBlock.ToInt16Slice (this : MemBlock) : Except Error Slice :=
  if this.freed then .error .AlreadyFreed
  else if this.size < 2 then .error .SmallSize
  else
    let sSize := Int.tdiv this.size (2)
    .ok ⟨.scalar .Int16, this.ptr, sSize, sSize⟩

/-- The method `ToInt32Slice` (lines 329-345). -/
def MemBlock.ToInt32Slice (this : MemBlock) : Except Error Slice :=
  if this.freed then .error .AlreadyFreed
  else if this.size < 4 then .error .SmallSize
  else
    let sSize := Int.tdiv this.size (4)
    .ok ⟨.scalar .Int32, this.ptr, sSize, sSize⟩

/-- The method `ToInt64Slice` (lines 347-363). -/
def MemBlock.ToInt64Slice (this : MemBlock) : Except Error Slice :=
  if this.freed then .error .AlreadyFreed
  else if this.size < 8 then .error .SmallSize
  else
    let sSize := Int.tdiv this.size (8)
    .ok ⟨.scalar .Int64, this.ptr, sSize, sSize⟩

/-- The method `ToUIntSlice` (lines 365-381). -/
def MemBlock.ToUIntSlice (a : Arch) (this : MemBlock) : Except Error Slice :=
  if this.freed then .error .AlreadyFreed
  else if this.size < intSize a then .error .SmallSize
  else
    let sSize := Int.tdiv this.size (intSize a)
    .ok ⟨.scalar .Uint, this.ptr, sSize, sSize⟩

/-- The method `ToUInt8Slice` (lines 383-399). -/
def MemBlock.ToUInt8Slice (this : MemBlock) : Except Error Slice :=
  if this.freed then .error .AlreadyFreed
  else if this.size < 1 then .error .SmallSize
  else
    let sSize := this.size
    .ok ⟨.scalar .Uint8, this.ptr, sSize, sSize⟩

/-- The method `ToUInt16Slice` (lines 401-417). -/
def MemBlock.ToUInt16Slice (this : MemBlock) : Except Error Slice :=
  if this.freed then .error .AlreadyFreed
  else if this.size < 2 then .error .SmallSize
  else
    let sSize := Int.tdiv this.size (2)
    .ok ⟨.scalar .Uint16, this.ptr, sSize, sSize⟩

/-- The method `ToUInt32Slice` (lines 419-435). -/
def MemBlock.ToUInt32Slice (this : MemBlock) : Except Error Slice :=
  if this.freed then .error .AlreadyFreed
  else if this.size < 4 then .error .SmallSize
  else
    let sSize := Int.tdiv this.size (4)
    .ok ⟨.scalar .Uint32, this.ptr, sSize, sSize⟩

/-- The method `ToUInt64Slice` (lines 437-453). -/
def MemBlock.ToUInt64Slice (this : MemBlock) : Except Error Slice :=
  if this.freed then .error .AlreadyFreed
  else if this.size < 8 then .error .SmallSize
  else
    let sSize := Int.tdiv this.size (8)
    .ok ⟨.scalar .Uint64, this.ptr, sSize, sSize⟩

/-- The eleven typed scalar projections of alloc.go. -/
inductive ScalarProj where
  | ToInt
  | ToInt8
  | ToInt16
  | ToInt32
  | ToInt64
  | ToUInt
  | ToUInt8
  | ToByte
  | ToUInt16
  | ToUInt32
  | ToUInt64
  deriving DecidableEq, Repr

/-- The width `W` each typed scalar projection compares the block size with. -/
def ScalarProj.width (a : Arch) : ScalarProj → Int
  | .ToInt => intSize a
  | .ToInt8 => 1
  | .ToInt16 => 2
  | .ToInt32 => 4
  | .ToInt64 => 8
  | .ToUInt => intSize a
  | .ToUInt8 => 1
  | .ToByte => 1
  | .ToUInt16 => 2
  | .ToUInt32 => 4
  | .ToUInt64 => 8

/-- The scalar type each typed scalar projection points at. -/
def ScalarProj.elem : ScalarProj → RType
  | .ToInt => .scalar .Int
  | .ToInt8 => .scalar .Int8
  | .ToInt16 => .scalar .Int16
  | .ToInt32 => .scalar .Int32
  | .ToInt64 => .scalar .Int64
  | .ToUInt => .scalar .Uint
  | .ToUInt8 => .scalar .Uint8
  | .ToByte => .scalar .Uint8
  | .ToUInt16 => .scalar .Uint16
  | .ToUInt32 => .scalar .Uint32
  | .ToUInt64 => .scalar .Uint64

/-- Running a typed scalar projection on a block. -/
def ScalarProj.run (a : Arch) (this : MemBlock) : ScalarProj → Except Error Pointer
  | .ToInt => this.ToInt a
  | .ToInt8 => this.ToInt8
  | .ToInt16 => this.ToInt16
  | .ToInt32 => this.ToInt32
  | .ToInt64 => this.ToInt64
  | .ToUInt => this.ToUInt a
  | .ToUInt8 => this.ToUInt8
  | .ToByte => this.ToByte
  | .ToUInt16 => this.ToUInt16
  | .ToUInt32 => this.ToUInt32
  | .ToUInt64 => this.ToUInt64

/-- The eleven typed sequence projections of alloc.go. -/
inductive SliceProj where
  | ToIntSlice
  | ToByteSlice
  | ToInt8Slice
  | ToInt16Slice
  | ToInt32Slice
  | ToInt64Slice
  | ToUIntSlice
  | ToUInt8Slice
  | ToUInt16Slice
  | ToUInt32Slice
  | ToUInt64Slice
  deriving DecidableEq, Repr

/-- The element width `W` of each typed sequence projection. -/
def SliceProj.width (a : Arch) : SliceProj → Int
  | .ToIntSlice => intSize a
  | .ToByteSlice => 1
  | .ToInt8Slice => 1
  | .ToInt16Slice => 2
  | .ToInt32Slice => 4
  | .ToInt64Slice => 8
  | .ToUIntSlice => intSize a
  | .ToUInt8Slice => 1
  | .ToUInt16Slice => 2
  | .ToUInt32Slice => 4
  | .ToUInt64Slice => 8

/-- The element type of each typed sequence projection. -/
def SliceProj.elem : SliceProj → RType
  | .ToIntSlice => .scalar .Int
  | .ToByteSlice => .scalar .Uint8
  | .ToInt8Slice => .scalar .Int8
  | .ToInt16Slice => .scalar .Int16
  | .ToInt32Slice => .scalar .Int32
  | .ToInt64Slice => .scalar .Int64
  | .ToUIntSlice => .scalar .Uint
  | .ToUInt8Slice => .scalar .Uint8
  | .ToUInt16Slice => .scalar .Uint16
  | .ToUInt32Slice => .scalar .Uint32
  | .ToUInt64Slice => .scalar .Uint64

/-- Running a typed sequence projection on a block. -/
def SliceProj.run (a : Arch) (this : MemBlock) : SliceProj → Except Error Slice
  | .ToIntSlice => this.ToIntSlice a
  | .ToByteSlice => this.ToByteSlice
  | .ToInt8Slice => this.ToInt8Slice
  | .ToInt16Slice => this.ToInt16Slice
  | .ToInt32Slice => this.ToInt32Slice
  | .ToInt64Slice => this.ToInt64Slice
  | .ToUIntSlice => this.ToUIntSlice a
  | .ToUInt8Slice => this.ToUInt8Slice
  | .ToUInt16Slice => this.ToUInt16Slice
  | .ToUInt32Slice => this.ToUInt32Slice
  | .ToUInt64Slice => this.ToUInt64Slice


/-! ## Callers -/

/-- A caller that resizes a block to each size of a list in turn and stops at
the first error (as `TestAlloc` does with 4 and 16): the block and the call
log after the last resize, or `none` when some resize returned an error. -/
def resizeAll (c : Libc) (a : Arch) : List Call → MemBlock → List Int →
    Option (MemBlock × List Call)
  | log, b, [] => some (b, log)
  | log, b, n :: rest =>
    match b.Resize c a log n with
    | (none, b1, log1) => resizeAll c a log1 b1 rest
    | (some _, _, _) => none

/-- An allocator for examples: it never fails, and answers with the address
`4096 * (number of earlier calls + 1)`. -/
def bumpLibc : Libc where
  calloc := fun log _ _ => 4096 * (log.length + 1)
  realloc := fun log _ _ => 4096 * (log.length + 1)

/-- One call a caller can make on a block it holds. -/
inductive Op where
  | Resize (size : Int)
  | Free
  | scalar (p : ScalarProj)
  | slice (p : SliceProj)
  | iface (typ : Option RType)
  deriving DecidableEq, Repr

/-- The block and the allocator call log after one call: `Resize` and `Free`
are the only methods that assign to the receiver or reach the allocator; the
projections only read the receiver. -/
def applyOp (c : Libc) (a : Arch) (s : MemBlock × List Call) : Op → MemBlock × List Call
  | .Resize size => (s.1.Resize c a s.2 size).2
  | .Free => s.1.Free s.2
  | .scalar _ => s
  | .slice _ => s
  | .iface _ => s

/-- The block and the allocator call log after a sequence of calls. -/
def runOps (c : Libc) (a : Arch) (s : MemBlock × List Call) (ops : List Op) :
    MemBlock × List Call :=
  ops.foldl (applyOp c a) s

/-- A block as the three constructors of the package return it. -/
def Constructed (c : Libc) (a : Arch) (b : MemBlock) : Prop :=
  (∃ log log1 size, Alloc c a log size = (.ok b, log1)) ∨
  (∃ log log1 typ size, AllocArray c a log typ size = (.ok b, log1)) ∨
  (∃ v, Load a v = .ok b)

/-- Whether a call into the allocator is a release. -/
def Call.isFree : Call → Bool
  | .free _ => true
  | _ => false

/-- Whether a call into the allocator is a reallocation. -/
def Call.isRealloc : Call → Bool
  | .realloc _ _ => true
  | _ => false

/-- A chain of pointers, one for each address of the list (outermost first),
ending at `v`. -/
def Value.wrap : List Nat → Value → Value
  | [], v => v
  | addr :: rest, v => .ptr addr (Value.wrap rest v)

/-- A `k`-level pointer type over `t`. -/
def RType.wrap : Nat → RType → RType
  | 0, t => t
  | k + 1, t => .ptr (RType.wrap k t)

/-- The size of the block in a result of `Load`, keeping errors and panics. -/
def Outcome.blockSize : Outcome MemBlock → Outcome Int
  | .ok b => .ok b.size
  | .err e => .err e
  | .panic => .panic

/-- A typed sequence result seen as the dynamic value `ToInterface` returns. -/
def Outcome.ofSlice : Except Error Slice → Outcome View
  | .ok s => .ok (.slice s)
  | .error e => .err e

/-- Target types of the default case of `ToInterface` that the claims name:
scalars, structs and fixed-size arrays. -/
def RType.isFixed : RType → Bool
  | .scalar _ => true
  | .struct _ => true
  | .array _ _ => true
  | _ => false

/-- Whether a type size is at least 1 and at most the largest `int`, so that
its conversion to `int` is the size itself and is positive. -/
def positiveInt (a : Arch) (n : Nat) : Bool :=
  decide (0 < n ∧ (n : Int) ≤ a.maxInt)

/-- Target types whose view needs at least one byte of the block: after
unwrapping pointers, a slice whose element size is at least 1 and at most the
largest `int`, or a scalar, struct, array or string type with such a size. -/
def RType.needsBytes (a : Arch) : RType → Bool
  | .ptr elem => elem.needsBytes a
  | .slice elem => positiveInt a (elem.Size a)
  | .chan _ => false
  | .map _ _ => false
  | .func => false
  | .iface => false
  | .scalar s => positiveInt a ((RType.scalar s).Size a)
  | .struct size => positiveInt a ((RType.struct size).Size a)
  | .array len elem => positiveInt a ((RType.array len elem).Size a)
  | .string => positiveInt a (RType.string.Size a)

/-- An allocator that answers `NULL` to every request of more than the
largest `int` of bytes, as C allocators do (no object is larger than
`PTRDIFF_MAX`). -/
def Libc.refusesHuge (c : Libc) (a : Arch) : Prop :=
  ∀ (log : List Call) (n : Nat), 2 ^ (a.bits - 1) ≤ n →
    c.calloc log n 1 = 0 ∧ ∀ p : Nat, c.realloc log p n = 0

/-- An allocator for examples that refuses requests above the largest `int`
and grants every other one. -/
def cappedLibc (a : Arch) : Libc where
  calloc := fun log n _ => if 2 ^ (a.bits - 1) ≤ n then 0 else 4096 * (log.length + 1)
  realloc := fun log _ n => if 2 ^ (a.bits - 1) ≤ n then 0 else 4096 * (log.length + 1)

/-! ## Common shape of the typed projections -/

/-- The common shape of the typed scalar projections: freed check, size
check against `w`, then a pointer of type `*t` at the block's address. -/
def scalarAt (w : Int) (t : RType) (this : MemBlock) : Except Error Pointer :=
  if this.freed then .error .AlreadyFreed
  else if this.size < w then .error .SmallSize
  else .ok ⟨t, this.ptr⟩

/-- The common shape of the typed sequence projections: freed check, size
check against `w`, then a slice of `size / w` elements of type `t`. -/
def sliceAt (w : Int) (t : RType) (this : MemBlock) : Except Error Slice :=
  if this.freed then .error .AlreadyFreed
  else if this.size < w then .error .SmallSize
  else .ok ⟨t, this.ptr, Int.tdiv this.size w, Int.tdiv this.size w⟩

/-! ## Auxiliary facts -/

theorem intSize_eq (a : Arch) : intSize a = (a.wordSize : Int) := rfl

theorem wordSize_cases (a : Arch) : a.wordSize = 4 ∨ a.wordSize = 8 := by
  cases a
  · exact Or.inl rfl
  · exact Or.inr rfl

theorem intSize_pos (a : Arch) : 0 < intSize a := by
  rw [intSize_eq]
  rcases wordSize_cases a with h | h <;> rw [h] <;> decide

/-- Go's truncated division agrees with the floor of the exact quotient when
both operands are positive. -/
theorem wrapInt_of_fits (a : Arch) (x : Int) (h1 : a.minInt ≤ x) (h2 : x ≤ a.maxInt) :
    wrapInt a x = x := by
  unfold wrapInt
  unfold Arch.minInt at h1
  unfold Arch.maxInt at h2
  have hb : (2 : Int) ^ a.bits = 2 * (2 : Int) ^ (a.bits - 1) := by
    cases a <;> simp [Arch.bits, Arch.wordSize]
  have hp : (0 : Int) < (2 : Int) ^ (a.bits - 1) := by positivity
  rw [hb, Int.emod_eq_of_lt (by omega) (by omega)]
  omega

theorem minInt_neg (a : Arch) : a.minInt < 0 := by
  unfold Arch.minInt
  have hp : (0 : Int) < (2 : Int) ^ (a.bits - 1) := by positivity
  omega

theorem maxInt_ge (a : Arch) : 16 ≤ a.maxInt := by
  cases a <;> decide

/-- A type size of at most the largest `int` converts to itself. -/
theorem toInt_of_le (a : Arch) (n : Nat) (h : (n : Int) ≤ a.maxInt) : toInt a n = (n : Int) :=
  wrapInt_of_fits a n (by have := minInt_neg a; omega) h

theorem toInt_zero (a : Arch) : toInt a 0 = 0 :=
  toInt_of_le a 0 (by have := maxInt_ge a; simp only [Nat.cast_zero]; omega)

theorem toInt_of_positive (a : Arch) (n : Nat) (h : positiveInt a n = true) :
    toInt a n = (n : Int) ∧ 0 < toInt a n := by
  simp only [positiveInt, decide_eq_true_eq] at h
  rw [toInt_of_le a n h.2]
  exact ⟨rfl, by omega⟩

theorem toInt_scalar_size (a : Arch) (s : Scalar) :
    toInt a ((RType.scalar s).Size a) = ((RType.scalar s).Size a : Int) := by
  apply toInt_of_le
  have h := maxInt_ge a
  have hs : (RType.scalar s).Size a ≤ 16 := by
    cases a <;> cases s <;> decide
  omega

/-- In `AllocArray` the conversion `int(...)` of the type size does not change
the reduced product. -/
theorem wrapInt_mul_toInt (a : Arch) (size : Int) (n : Nat) :
    wrapInt a (size * toInt a n) = wrapInt a (size * (n : Int)) := by
  unfold toInt wrapInt
  have h : size * (((n : Int) + 2 ^ (a.bits - 1)) % 2 ^ a.bits - 2 ^ (a.bits - 1))
      + 2 ^ (a.bits - 1)
      = size * (n : Int) + 2 ^ (a.bits - 1)
        + 2 ^ a.bits * (-(size * (((n : Int) + 2 ^ (a.bits - 1)) / 2 ^ a.bits))) := by
    rw [Int.emod_def]
    ring
  rw [h, Int.add_mul_emod_self_left]

theorem tdiv_eq_floor (x w : Int) (hw : 0 < w) (hx : 0 ≤ x) :
    Int.tdiv x w = ⌊(x : ℚ) / (w : ℚ)⌋ := by
  rw [Int.tdiv_eq_ediv hx (le_of_lt hw)]
  have h := Rat.floor_intCast_div_natCast x w.toNat
  rw [Int.toNat_of_nonneg (le_of_lt hw)] at h
  rw [← h]
  congr 2
  exact_mod_cast Int.toNat_of_nonneg (le_of_lt hw)

theorem tdiv_pos_of_le (x w : Int) (hw : 0 < w) (hx : w ≤ x) : 0 < Int.tdiv x w := by
  rw [Int.tdiv_eq_ediv (by omega) (le_of_lt hw)]
  have h1 : w * 1 ≤ x := by omega
  have h2 := (Int.le_ediv_iff_mul_le hw).2 (by rw [Int.mul_comm] at h1; exact h1 : (1 : Int) * w ≤ x)
  omega

/-! ## Typed projections -/

theorem scalarProj_run_eq (a : Arch) (p : ScalarProj) (b : MemBlock) :
    p.run a b = scalarAt (p.width a) p.elem b := by
  cases p <;> rfl

theorem sliceProj_run_eq (a : Arch) (p : SliceProj) (b : MemBlock) :
    p.run a b = sliceAt (p.width a) p.elem b := by
  cases p <;>
    simp [SliceProj.run, SliceProj.width, SliceProj.elem, sliceAt, MemBlock.ToIntSlice,
      MemBlock.ToByteSlice, MemBlock.ToInt8Slice, MemBlock.ToInt16Slice, MemBlock.ToInt32Slice,
      MemBlock.ToInt64Slice, MemBlock.ToUIntSlice, MemBlock.ToUInt8Slice,
      MemBlock.ToUInt16Slice, MemBlock.ToUInt32Slice, MemBlock.ToUInt64Slice, Int.tdiv_one]

theorem scalarProj_elem_size (a : Arch) (p : ScalarProj) :
    (p.elem.Size a : Int) = p.width a := by
  cases p <;> rfl

theorem sliceProj_elem_size (a : Arch) (p : SliceProj) :
    (p.elem.Size a : Int) = p.width a := by
  cases p <;> rfl

theorem scalarProj_width_pos (a : Arch) (p : ScalarProj) : 0 < p.width a := by
  cases p <;> first | exact intSize_pos a | (simp only [ScalarProj.width]; omega)

theorem sliceProj_width_pos (a : Arch) (p : SliceProj) : 0 < p.width a := by
  cases p <;> first | exact intSize_pos a | (simp only [SliceProj.width]; omega)

theorem scalarAt_small (w : Int) (t : RType) (b : MemBlock) (hb : b.freed = false)
    (h : b.size < w) : scalarAt w t b = .error .SmallSize := by
  simp [scalarAt, hb, h]

theorem scalarAt_fits (w : Int) (t : RType) (b : MemBlock) (hb : b.freed = false)
    (h : w ≤ b.size) : scalarAt w t b = .ok ⟨t, b.ptr⟩ := by
  simp [scalarAt, hb, not_lt.2 h]

theorem sliceAt_small (w : Int) (t : RType) (b : MemBlock) (hb : b.freed = false)
    (h : b.size < w) : sliceAt w t b = .error .SmallSize := by
  simp [sliceAt, hb, h]

theorem sliceAt_fits (w : Int) (t : RType) (b : MemBlock) (hb : b.freed = false)
    (h : w ≤ b.size) :
    sliceAt w t b = .ok ⟨t, b.ptr, Int.tdiv b.size w, Int.tdiv b.size w⟩ := by
  simp [sliceAt, hb, not_lt.2 h]

theorem scalarAt_freed (w : Int) (t : RType) (b : MemBlock) (hb : b.freed = true) :
    scalarAt w t b = .error .AlreadyFreed := by
  simp [scalarAt, hb]

theorem sliceAt_freed (w : Int) (t : RType) (b : MemBlock) (hb : b.freed = true) :
    sliceAt w t b = .error .AlreadyFreed := by
  simp [sliceAt, hb]

/-- C1: on a block that is not freed, a typed scalar projection of width `W`
(`ToInt8`, `ToUInt8`, `ToByte`: 1; `ToInt16`, `ToUInt16`: 2; `ToInt32`,
`ToUInt32`: 4; `ToInt64`, `ToUInt64`: 8; `ToInt`, `ToUInt`: the platform int
width) returns `SmallSize` when `size < W` and a reference at the block's
address, to a scalar type of byte size `W`, when `size ≥ W`; so it succeeds
exactly when `size ≥ W`. -/
theorem scalar_projection_succeeds_iff (a : Arch) (p : ScalarProj) (b : MemBlock)
    (hb : b.freed = false) :
    (b.size < p.width a → p.run a b = .error .SmallSize) ∧
    (p.width a ≤ b.size →
      ∃ r, p.run a b = .ok r ∧ r.addr = b.ptr ∧ (r.elem.Size a : Int) = p.width a) ∧
    ((∃ r, p.run a b = .ok r) ↔ p.width a ≤ b.size) := by
  rw [scalarProj_run_eq]
  refine ⟨scalarAt_small _ _ b hb, fun h => ?_, ?_, ?_⟩
  · exact ⟨_, scalarAt_fits _ _ b hb h, rfl, scalarProj_elem_size a p⟩
  · rintro ⟨r, hr⟩
    by_contra hlt
    rw [scalarAt_small _ _ b hb (not_le.1 hlt)] at hr
    cases hr
  · intro h
    exact ⟨_, scalarAt_fits _ _ b hb h⟩

/-- Witness of C1: `ToInt32` on a live 8-byte block. -/
theorem scalar_projection_succeeds_iff_witness :
    (ScalarProj.ToInt32.run .bits64 ⟨8, false, false, 4096⟩ = .ok ⟨.scalar .Int32, 4096⟩) ∧
    ((3 : Int) < ScalarProj.ToInt32.width .bits64 →
      ScalarProj.ToInt32.run .bits64 ⟨3, false, false, 4096⟩ = .error .SmallSize) :=
  ⟨rfl,
   (scalar_projection_succeeds_iff .bits64 .ToInt32 ⟨3, false, false, 4096⟩ rfl).1⟩

/-- C2: on a block that is not freed, a typed sequence projection of element
width `W` returns `SmallSize` when `size < W`, and otherwise a slice over the
block's address whose length and capacity both equal `floor(size / W)`; the
slice it returns never has length zero. -/
theorem slice_projection_count (a : Arch) (p : SliceProj) (b : MemBlock)
    (hb : b.freed = false) :
    (b.size < p.width a → p.run a b = .error .SmallSize) ∧
    (p.width a ≤ b.size →
      ∃ s, p.run a b = .ok s ∧ s.Data = b.ptr ∧
        s.Len = ⌊(b.size : ℚ) / (p.width a : ℚ)⌋ ∧
        s.Cap = ⌊(b.size : ℚ) / (p.width a : ℚ)⌋) ∧
    (∀ s, p.run a b = .ok s → s.Len ≠ 0 ∧ s.Cap ≠ 0) := by
  have hw := sliceProj_width_pos a p
  rw [sliceProj_run_eq]
  refine ⟨sliceAt_small _ _ b hb, fun h => ?_, fun s hs => ?_⟩
  · have hfl := tdiv_eq_floor b.size (p.width a) hw (by omega)
    exact ⟨_, sliceAt_fits _ _ b hb h, rfl, hfl, hfl⟩
  · rcases lt_or_le b.size (p.width a) with h | h
    · rw [sliceAt_small _ _ b hb h] at hs
      cases hs
    · rw [sliceAt_fits _ _ b hb h] at hs
      have hpos := tdiv_pos_of_le b.size (p.width a) hw h
      cases hs
      exact ⟨by simp only; omega, by simp only; omega⟩

/-- Witness of C2: `ToInt16Slice` on a live 5-byte block has two elements. -/
theorem slice_projection_count_witness :
    SliceProj.ToInt16Slice.run .bits64 ⟨5, false, false, 4096⟩
        = .ok ⟨.scalar .Int16, 4096, 2, 2⟩ ∧
      ∀ s, SliceProj.ToInt16Slice.run .bits64 ⟨5, false, false, 4096⟩ = .ok s →
        s.Len ≠ 0 ∧ s.Cap ≠ 0 :=
  ⟨rfl,
   (slice_projection_count .bits64 .ToInt16Slice ⟨5, false, false, 4096⟩ rfl).2.2⟩

/-! ## The state machine: Resize and Free -/

theorem ToInterface_freed (a : Arch) (b : MemBlock) (typ : Option RType)
    (hb : b.freed = true) : b.ToInterface a typ = .err .AlreadyFreed := by
  simp [MemBlock.ToInterface, hb]

theorem Resize_freed (c : Libc) (a : Arch) (log : List Call) (b : MemBlock) (n : Int)
    (hb : b.freed = true) : b.Resize c a log n = (some .AlreadyFreed, b, log) := by
  simp [MemBlock.Resize, hb]

theorem Resize_borrowed (c : Libc) (a : Arch) (log : List Call) (b : MemBlock) (n : Int)
    (hf : b.freed = false) (hg : b.gcmanaged = true) :
    b.Resize c a log n = (some .GCManaged, b, log) := by
  simp [MemBlock.Resize, hf, hg]

theorem Resize_owning (c : Libc) (a : Arch) (log : List Call) (b : MemBlock) (n : Int)
    (hf : b.freed = false) (hg : b.gcmanaged = false) :
    b.Resize c a log n =
      if c.realloc log b.ptr (toSizeT a n) = 0 then
        (some .AllocationFailed, b, log ++ [Call.realloc b.ptr (toSizeT a n)])
      else
        (none, { b with ptr := c.realloc log b.ptr (toSizeT a n), size := n },
          log ++ [Call.realloc b.ptr (toSizeT a n)]) := by
  by_cases h : c.realloc log b.ptr (toSizeT a n) = 0 <;>
    simp [MemBlock.Resize, hf, hg, realloc, h]

theorem Free_noop (log : List Call) (b : MemBlock)
    (h : b.freed = true ∨ b.gcmanaged = true) : b.Free log = (b, log) := by
  rcases h with h | h <;> simp [MemBlock.Free, h]

theorem Free_owning (log : List Call) (b : MemBlock)
    (hf : b.freed = false) (hg : b.gcmanaged = false) :
    b.Free log = ({ b with freed := true }, log ++ [Call.free b.ptr]) := by
  simp [MemBlock.Free, hf, hg, free]

/-- C3: on a freed block, `Resize` with any new size, every typed scalar
projection, every typed sequence projection and `ToInterface` with any
exemplar (unsupported shapes, shapes larger than the block, a nil exemplar)
return `AlreadyFreed`; `Resize` leaves the block and the call log as they
were. -/
theorem freed_block_rejects_all (c : Libc) (a : Arch) (log : List Call) (b : MemBlock)
    (hb : b.freed = true) :
    (∀ n : Int, b.Resize c a log n = (some .AlreadyFreed, b, log)) ∧
    (∀ p : ScalarProj, p.run a b = .error .AlreadyFreed) ∧
    (∀ p : SliceProj, p.run a b = .error .AlreadyFreed) ∧
    (∀ typ : Option RType, b.ToInterface a typ = .err .AlreadyFreed) := by
  refine ⟨fun n => Resize_freed c a log b n hb, fun p => ?_, fun p => ?_,
    fun typ => ToInterface_freed a b typ hb⟩
  · rw [scalarProj_run_eq]
    exact scalarAt_freed _ _ b hb
  · rw [sliceProj_run_eq]
    exact sliceAt_freed _ _ b hb

/-- Witness of C3: a freed 0-byte block asked for a channel view. -/
theorem freed_block_rejects_all_witness :
    (⟨0, true, false, 4096⟩ : MemBlock).ToInterface .bits64 (some (.chan (.scalar .Int)))
      = .err .AlreadyFreed :=
  (freed_block_rejects_all bumpLibc .bits64 [] ⟨0, true, false, 4096⟩ rfl).2.2.2 _

/-- C4: `Free` is idempotent: the block and the call log after two calls are
those after one call; `Free` has no error result; on an owning block the
freed flag is set after the first call and after the second; `Free` never
changes size, address or the borrowed flag. -/
theorem free_idempotent (log : List Call) (b : MemBlock) :
    (b.Free log).1.Free (b.Free log).2 = b.Free log ∧
    (b.gcmanaged = false →
      (b.Free log).1.freed = true ∧ ((b.Free log).1.Free (b.Free log).2).1.freed = true) ∧
    (b.Free log).1.size = b.size ∧ (b.Free log).1.gcmanaged = b.gcmanaged ∧
    (b.Free log).1.ptr = b.ptr := by
  rcases b with ⟨size, freed, gc, ptr⟩
  cases freed <;> cases gc <;> simp [MemBlock.Free, free]

/-- C5: on a borrowed block that is not freed (as every block returned by
`Load` is), `Resize` with any size returns `GCManaged` and leaves the block
(size, address, freed, borrowed) and the allocator call log unchanged, and
`Free` leaves the block and the call log unchanged, so freed stays false. -/
theorem borrowed_block_is_immutable (c : Libc) (a : Arch) (log : List Call) (b : MemBlock)
    (hg : b.gcmanaged = true) (hf : b.freed = false) :
    (∀ n : Int, b.Resize c a log n = (some .GCManaged, b, log)) ∧
    b.Free log = (b, log) ∧ (b.Free log).1.freed = false :=
  ⟨fun n => Resize_borrowed c a log b n hf hg, Free_noop log b (Or.inr hg),
    by rw [Free_noop log b (Or.inr hg)]; exact hf⟩

/-- Witness of C5: the block `Load` returns for a 4-byte slice. -/
theorem borrowed_block_is_immutable_witness :
    Load .bits64 (.slice (.scalar .Uint8) 4096 4 4) = .ok ⟨4, false, true, 4096⟩ ∧
    (∀ n : Int, (⟨4, false, true, 4096⟩ : MemBlock).Resize bumpLibc .bits64 [] n
      = (some .GCManaged, ⟨4, false, true, 4096⟩, [])) :=
  ⟨rfl, (borrowed_block_is_immutable bumpLibc .bits64 [] ⟨4, false, true, 4096⟩ rfl rfl).1⟩

theorem Resize_ok_iff (c : Libc) (a : Arch) (log : List Call) (b : MemBlock) (n : Int)
    (hf : b.freed = false) (hg : b.gcmanaged = false) :
    (b.Resize c a log n).1 = none ↔ c.realloc log b.ptr (toSizeT a n) ≠ 0 := by
  rw [Resize_owning c a log b n hf hg]
  by_cases h : c.realloc log b.ptr (toSizeT a n) = 0 <;> simp [h]

theorem Resize_ok_state (c : Libc) (a : Arch) (log : List Call) (b b1 : MemBlock) (n : Int)
    (log1 : List Call) (h : b.Resize c a log n = (none, b1, log1)) :
    b1.size = n ∧ b1.freed = false ∧ b1.gcmanaged = false ∧
      b.freed = false ∧ b.gcmanaged = false := by
  cases hf : b.freed
  · cases hg : b.gcmanaged
    · rw [Resize_owning c a log b n hf hg] at h
      by_cases hz : c.realloc log b.ptr (toSizeT a n) = 0
      · simp [hz] at h
      · simp only [hz, if_false, Prod.mk.injEq, true_and] at h
        rw [← h.1]
        simp [hf, hg]
    · rw [Resize_borrowed c a log b n hf hg] at h
      simp at h
  · rw [Resize_freed c a log b n hf] at h
    simp at h

theorem resizeAll_cons (c : Libc) (a : Arch) (log : List Call) (b : MemBlock) (n : Int)
    (rest : List Int) (r : MemBlock × List Call)
    (h : resizeAll c a log b (n :: rest) = some r) :
    ∃ b1 log1, b.Resize c a log n = (none, b1, log1) ∧ resizeAll c a log1 b1 rest = some r := by
  rcases hres : b.Resize c a log n with ⟨e, b1, log1⟩
  cases e with
  | none => exact ⟨b1, log1, rfl, by simpa [resizeAll, hres] using h⟩
  | some e => simp [resizeAll, hres] at h

theorem resizeAll_last (c : Libc) (a : Arch) (ns : List Int) :
    ∀ (log : List Call) (b : MemBlock) (n : Int) (r : MemBlock × List Call),
      resizeAll c a log b (ns ++ [n]) = some r →
        r.1.size = n ∧ r.1.freed = false ∧ r.1.gcmanaged = false := by
  induction ns with
  | nil =>
    intro log b n r h
    obtain ⟨b1, log1, h1, h2⟩ := resizeAll_cons c a log b n [] r h
    have hs := Resize_ok_state c a log b b1 n log1 h1
    simp only [resizeAll, Option.some.injEq] at h2
    rw [← h2]
    exact ⟨hs.1, hs.2.1, hs.2.2.1⟩
  | cons m rest ih =>
    intro log b n r h
    obtain ⟨b1, log1, _, h2⟩ := resizeAll_cons c a log b m (rest ++ [n]) r h
    exact ih log1 b1 n r h2

theorem resizeAll_total (c : Libc) (a : Arch) (hc : ∀ l p s, c.realloc l p s ≠ 0)
    (ns : List Int) :
    ∀ (log : List Call) (b : MemBlock), b.freed = false → b.gcmanaged = false →
      ∃ r, resizeAll c a log b ns = some r := by
  induction ns with
  | nil => exact fun log b _ _ => ⟨(b, log), rfl⟩
  | cons m rest ih =>
    intro log b hf hg
    have hres := Resize_owning c a log b m hf hg
    simp only [hc, if_false] at hres
    obtain ⟨r, hr⟩ := ih (log ++ [Call.realloc b.ptr (toSizeT a m)])
      { b with ptr := c.realloc log b.ptr (toSizeT a m), size := m } hf hg
    exact ⟨r, by simp only [resizeAll, hres]; exact hr⟩

/-- C6: on an owning block that is not freed, whenever the allocator's
`realloc` answers a non-null address for the new size `n`, `Resize(n)` returns
no error, `Size()` is `n` afterwards and the freed and borrowed flags are
unchanged; after any non-empty sequence of resizes that all returned no error
`Size()` is the last requested size, and with an allocator that never fails
every such sequence runs through. -/
theorem resize_sets_size (c : Libc) (a : Arch) (log : List Call) (b : MemBlock)
    (hg : b.gcmanaged = false) (hf : b.freed = false) :
    (∀ n : Int, c.realloc log b.ptr (toSizeT a n) ≠ 0 →
      ∃ b1 log1, b.Resize c a log n = (none, b1, log1) ∧ b1.Size = n ∧
        b1.freed = b.freed ∧ b1.gcmanaged = b.gcmanaged) ∧
    (∀ (ns : List Int) (n : Int) (r : MemBlock × List Call),
      resizeAll c a log b (ns ++ [n]) = some r →
        r.1.Size = n ∧ r.1.freed = b.freed ∧ r.1.gcmanaged = b.gcmanaged) ∧
    ((∀ l p s, c.realloc l p s ≠ 0) →
      ∀ (ns : List Int) (n : Int), ∃ r, resizeAll c a log b (ns ++ [n]) = some r ∧
        r.1.Size = n) := by
  refine ⟨fun n hn => ?_, fun ns n r h => ?_, fun hc ns n => ?_⟩
  · have hres := Resize_owning c a log b n hf hg
    simp only [hn, if_false] at hres
    exact ⟨_, _, hres, rfl, rfl, rfl⟩
  · rw [hf, hg]
    exact resizeAll_last c a ns log b n r h
  · obtain ⟨r, hr⟩ := resizeAll_total c a hc (ns ++ [n]) log b hf hg
    exact ⟨r, hr, (resizeAll_last c a ns log b n r hr).1⟩

/-- Witness of C6: the resizes of `TestAlloc`, 8 to 4 to 16 bytes. -/
theorem resize_sets_size_witness :
    ∃ r, resizeAll bumpLibc .bits64 [] ⟨8, false, false, 4096⟩ ([4] ++ [16]) = some r ∧
      r.1.Size = 16 :=
  (resize_sets_size bumpLibc .bits64 [] ⟨8, false, false, 4096⟩ rfl rfl).2.2
    (fun l _ _ => by simp [bumpLibc]) [4] 16

/-! ## Constructors -/

theorem AllocArray_ok (c : Libc) (a : Arch) (log log1 : List Call) (t : RType) (count : Int)
    (b : MemBlock) (h : AllocArray c a log (some t) count = (.ok b, log1)) :
    b = ⟨wrapInt a (count * (t.Size a : Int)), false, false,
      c.calloc log (toSizeT a (wrapInt a (count * (t.Size a : Int)))) 1⟩ := by
  simp only [AllocArray, alloc] at h
  by_cases hz : c.calloc log (toSizeT a (wrapInt a (count * (t.Size a : Int)))) 1 = 0
  · simp [hz] at h
  · simp only [hz, if_false, Prod.mk.injEq, Outcome.ok.injEq] at h
    exact h.1.symm

/-- Counterexample to C7 as stated: on a 64-bit platform `AllocArray(int64(0),
2^61 + 1)` asks the allocator for 8 bytes, because the product `8 * (2^61 + 1)`
does not fit in `int`; with an allocator that grants them the block has size 8,
not `8 * (2^61 + 1)`, and its `int64` sequence view has one element. -/
theorem allocArray_size_counterexample :
    (AllocArray bumpLibc .bits64 [] (some (.scalar .Int64)) (2 ^ 61 + 1)).1
        = .ok ⟨8, false, false, 4096⟩ ∧
      (8 : Int) ≠ ((RType.scalar .Int64).Size .bits64 : Int) * (2 ^ 61 + 1) ∧
      SliceProj.ToInt64Slice.run .bits64 ⟨8, false, false, 4096⟩
        = .ok ⟨.scalar .Int64, 4096, 1, 1⟩ := by
  refine ⟨?_, by decide, rfl⟩
  decide

/-- C7 (amended): when `AllocArray(elementType, count)` succeeds, the block is
owning and not freed and its size is the product `W * count` reduced to the
platform `int`; whenever that product lies in the `int` range the size is
`W * count`, and then for `count ≥ 1` every typed sequence projection of
element width `W` returns a slice of exactly `count` elements. -/
theorem allocArray_size (c : Libc) (a : Arch) (log log1 : List Call) (t : RType)
    (count : Int) (b : MemBlock)
    (hok : AllocArray c a log (some t) count = (.ok b, log1)) :
    b.size = wrapInt a ((t.Size a : Int) * count) ∧ b.freed = false ∧ b.gcmanaged = false ∧
    (a.minInt ≤ (t.Size a : Int) * count → (t.Size a : Int) * count ≤ a.maxInt →
      b.size = (t.Size a : Int) * count ∧
      (1 ≤ count → ∀ p : SliceProj, p.width a = (t.Size a : Int) →
        p.run a b = .ok ⟨p.elem, b.ptr, count, count⟩)) := by
  have hb := AllocArray_ok c a log log1 t count b hok
  have hsize : b.size = wrapInt a ((t.Size a : Int) * count) := by
    rw [hb, Int.mul_comm]
  have hfreed : b.freed = false := by rw [hb]
  refine ⟨hsize, hfreed, by rw [hb], fun h1 h2 => ?_⟩
  have hs : b.size = (t.Size a : Int) * count := by
    rw [hsize, wrapInt_of_fits a _ h1 h2]
  refine ⟨hs, fun hc p hp => ?_⟩
  have hw := sliceProj_width_pos a p
  rw [sliceProj_run_eq, sliceAt_fits _ _ b hfreed, hs, hp]
  · rw [Int.mul_tdiv_cancel_left count (by rw [← hp]; omega)]
  · rw [hs, ← hp]
    nlinarith

/-- Witness of C7: `AllocArray(int16(0), 8)` gives a 16-byte block whose
`int16` sequence view has 8 elements. -/
theorem allocArray_size_witness :
    AllocArray bumpLibc .bits64 [] (some (.scalar .Int16)) 8
        = (.ok ⟨16, false, false, 4096⟩, [Call.calloc 16 1]) ∧
      SliceProj.ToInt16Slice.run .bits64 ⟨16, false, false, 4096⟩
        = .ok ⟨.scalar .Int16, 4096, 8, 8⟩ :=
  ⟨by decide,
   ((allocArray_size bumpLibc .bits64 [] [Call.calloc 16 1] (.scalar .Int16) 8
      ⟨16, false, false, 4096⟩ (by decide)).2.2.2 (by decide) (by decide)).2 (by decide)
      .ToInt16Slice rfl⟩

/-! ## Load -/

/-- C8 (the code at the failing inputs): `Load` of a `[]uint16` of capacity 4
returns a block of size 4, the capacity, where the backing storage is
`4 * 2 = 8` bytes; `Load` of a pointer to a `[2]uint16` returns a block of
size 2, the array length, where the array is `2 * 2 = 4` bytes. -/
theorem load_size_counts_elements :
    Load .bits64 (.slice (.scalar .Uint16) 4096 4 4) = .ok ⟨4, false, true, 4096⟩ ∧
    (4 : Int) ≠ 4 * ((RType.scalar .Uint16).Size .bits64 : Int) ∧
    Load .bits64 (.ptr 4096 (.array 2 (.scalar .Uint16))) = .ok ⟨2, false, true, 4096⟩ ∧
    (2 : Int) ≠ ((RType.array 2 (.scalar .Uint16)).Size .bits64 : Int) := by
  decide

/-- Counterexample to C9 as stated: on a 32-bit platform `Load` of a pointer
to a struct of `2^31` bytes returns a block of size `-2^31`, the conversion
`int(val.Type().Size())` of line 75, not `2^31`. -/
theorem load_struct_size_counterexample :
    Load .bits32 (.ptr 4096 (.struct (2 ^ 31))) = .ok ⟨-2147483648, false, true, 4096⟩ ∧
    (-2147483648 : Int) ≠ ((RType.struct (2 ^ 31)).Size .bits32 : Int) := by
  decide

/-- C9 (amended): a scalar, a struct or a fixed-size array passed to `Load` by
value is refused with `NotAPointer` (no block is returned), and `Load` of a
pointer to it succeeds with a borrowed, not freed block at the pointer's
address; for a scalar the size of that block is the byte size of its type, and
for a struct of byte size `N` it is `N` converted to `int`, which is `N`
whenever `N` is at most the largest `int`. -/
theorem load_by_value_or_pointer (a : Arch) (addr : Nat) :
    (∀ s : Scalar, Load a (.scalar s) = .err .NotAPointer ∧
      Load a (.ptr addr (.scalar s)) = .ok ⟨((RType.scalar s).Size a : Int), false, true, addr⟩) ∧
    (∀ n : Nat, Load a (.struct n) = .err .NotAPointer ∧
      Load a (.ptr addr (.struct n))
        = .ok ⟨toInt a ((RType.struct n).Size a), false, true, addr⟩ ∧
      ((n : Int) ≤ a.maxInt →
        Load a (.ptr addr (.struct n))
          = .ok ⟨((RType.struct n).Size a : Int), false, true, addr⟩)) ∧
    (∀ (len : Nat) (elem : RType), Load a (.array len elem) = .err .NotAPointer ∧
      ∃ b, Load a (.ptr addr (.array len elem)) = .ok b ∧
        b.gcmanaged = true ∧ b.freed = false ∧ b.ptr = addr) := by
  refine ⟨fun s => ⟨?_, ?_⟩, fun n => ⟨?_, ?_, fun hn => ?_⟩, fun len elem =>
    ⟨?_, ⟨(len : Int), false, true, addr⟩, ?_, rfl, rfl, rfl⟩⟩
  · simp [Load, LoadSwitch, LoadDefault, Value.Kind]
  · have h := toInt_scalar_size a s
    simp only [RType.Size] at h
    simp [Load, LoadSwitch, LoadDefault, Value.Kind, Value.TypeSize, Value.Pointer, RType.Size, h]
  · simp [Load, LoadSwitch, LoadDefault, Value.Kind]
  · simp [Load, LoadSwitch, LoadDefault, Value.Kind, Value.TypeSize, Value.Pointer, RType.Size]
  · have h := toInt_of_le a n hn
    simp [Load, LoadSwitch, LoadDefault, Value.Kind, Value.TypeSize, Value.Pointer, RType.Size, h]
  · simp [Load, LoadSwitch, Value.Kind]
  · simp [Load, LoadSwitch, Value.Kind, Value.Pointer, Value.Cap]

/-- Witness of C9: the struct of two `int`s of `TestLoadStruct` (16 bytes on a
64-bit platform), by value and through a pointer. -/
theorem load_by_value_or_pointer_witness :
    Load .bits64 (.struct 16) = .err .NotAPointer ∧
    Load .bits64 (.ptr 4096 (.struct 16)) = .ok ⟨16, false, true, 4096⟩ :=
  ⟨((load_by_value_or_pointer .bits64 4096).2.1 16).1,
    ((load_by_value_or_pointer .bits64 4096).2.1 16).2.2 (by decide)⟩

theorem LoadSwitch_unsupported (a : Arch) (v : Value) :
    ∀ prev : Value, unsupportedKind v.strip.Kind = true →
      LoadSwitch a prev v = .err .UnsupportedValue := by
  induction v with
  | ptr addr pointee ih =>
    intro prev h
    simp only [LoadSwitch]
    exact ih _ h
  | scalar s =>
    intro prev h
    cases s <;> simp [Value.strip, Value.Kind, Scalar.Kind, unsupportedKind] at h
  | _ =>
    intro prev h
    first
      | rfl
      | simp [Value.strip, Value.Kind, unsupportedKind] at h

theorem ToInterfaceSwitch_unsupported (a : Arch) (b : MemBlock) (t : RType)
    (h : unsupportedKind t.strip.Kind = true) :
    b.ToInterfaceSwitch a t = .err .UnsupportedValue := by
  induction t with
  | ptr elem ih =>
    simp only [MemBlock.ToInterfaceSwitch]
    exact ih h
  | scalar s =>
    cases s <;> simp [RType.strip, RType.Kind, Scalar.Kind, unsupportedKind] at h
  | _ =>
    first
      | rfl
      | simp [RType.strip, RType.Kind, unsupportedKind] at h

/-- C10: `Load` of a value that, after every pointer has been followed, is a
channel, a map, a function or an interface returns `UnsupportedValue` (no
block); `ToInterface` on a block that is not freed, of any size, with a target
type that after unwrapping every pointer is a channel, a map, a function or an
interface, returns `UnsupportedValue`. -/
theorem unsupported_rejected (a : Arch) :
    (∀ v : Value, unsupportedKind v.strip.Kind = true →
      Load a v = .err .UnsupportedValue) ∧
    (∀ (b : MemBlock) (t : RType), b.freed = false → unsupportedKind t.strip.Kind = true →
      b.ToInterface a (some t) = .err .UnsupportedValue) := by
  refine ⟨fun v h => LoadSwitch_unsupported a v .zero h, fun b t hb h => ?_⟩
  simp only [MemBlock.ToInterface, hb]
  exact ToInterfaceSwitch_unsupported a b t h

/-- Witness of C10: a pointer to a pointer to a map, as a value and as a
target type. -/
theorem unsupported_rejected_witness :
    Load .bits64 (.ptr 4096 (.ptr 8192 .map)) = .err .UnsupportedValue ∧
    (⟨64, false, false, 4096⟩ : MemBlock).ToInterface .bits64
      (some (.ptr (.ptr (.map .string (.scalar .Int))))) = .err .UnsupportedValue :=
  ⟨(unsupported_rejected .bits64).1 _ rfl, (unsupported_rejected .bits64).2 _ _ rfl rfl⟩

/-! ## Load of text, empty blocks, the generic projection -/

/-- The default case of `ToInterface` on a scalar, struct or array type. -/
theorem ToInterfaceSwitch_fixed (a : Arch) (b : MemBlock) (t : RType)
    (ht : t.isFixed = true) :
    b.ToInterfaceSwitch a t =
      if b.size < toInt a (t.Size a) then .err .SmallSize else .ok (.ptr ⟨t, b.ptr⟩) := by
  cases t <;> simp [RType.isFixed] at ht <;> rfl

theorem ToInterfaceSwitch_empty (a : Arch) (b : MemBlock) (t : RType) (hs : b.size = 0)
    (ht : t.needsBytes a = true) : b.ToInterfaceSwitch a t = .err .SmallSize := by
  induction t with
  | ptr elem ih =>
    simp only [MemBlock.ToInterfaceSwitch]
    exact ih ht
  | slice elem =>
    have hp := (toInt_of_positive a _ ht).2
    have h0 : ¬ (toInt a (elem.Size a) = 0) := by omega
    simp [MemBlock.ToInterfaceSwitch, RType.elemOf, h0, hs]
  | scalar s =>
    have hp := (toInt_of_positive a _ ht).2
    have h0 : b.size < toInt a ((RType.scalar s).Size a) := by omega
    simp [MemBlock.ToInterfaceSwitch, h0]
  | struct size =>
    have hp := (toInt_of_positive a _ ht).2
    have h0 : b.size < toInt a ((RType.struct size).Size a) := by omega
    simp [MemBlock.ToInterfaceSwitch, h0]
  | array len elem _ =>
    have hp := (toInt_of_positive a _ ht).2
    have h0 : b.size < toInt a ((RType.array len elem).Size a) := by omega
    simp [MemBlock.ToInterfaceSwitch, h0]
  | string =>
    have hp := (toInt_of_positive a _ ht).2
    have h0 : b.size < toInt a (RType.string.Size a) := by omega
    simp [MemBlock.ToInterfaceSwitch, h0]
  | chan elem _ => simp [RType.needsBytes] at ht
  | map key elem _ _ => simp [RType.needsBytes] at ht
  | func => simp [RType.needsBytes] at ht
  | iface => simp [RType.needsBytes] at ht

theorem empty_block_projections (a : Arch) (b : MemBlock) (hb : b.freed = false)
    (hs : b.size = 0) :
    (∀ p : ScalarProj, p.run a b = .error .SmallSize) ∧
    (∀ p : SliceProj, p.run a b = .error .SmallSize) ∧
    (∀ t : RType, t.needsBytes a = true → b.ToInterface a (some t) = .err .SmallSize) := by
  refine ⟨fun p => ?_, fun p => ?_, fun t ht => ?_⟩
  · rw [scalarProj_run_eq]
    exact scalarAt_small _ _ b hb (by rw [hs]; exact scalarProj_width_pos a p)
  · rw [sliceProj_run_eq]
    exact sliceAt_small _ _ b hb (by rw [hs]; exact sliceProj_width_pos a p)
  · simp only [MemBlock.ToInterface, hb]
    exact ToInterfaceSwitch_empty a b t hs ht

/-- Counterexample to C11 as stated: the block `Load` returns for the empty
string has size 0, and its projection `ToInterface(struct{}{})` succeeds
instead of failing with `SmallSize`. -/
theorem load_empty_string_counterexample :
    Load .bits64 (.string 4096 0) = .ok ⟨0, false, true, 4096⟩ ∧
    (⟨0, false, true, 4096⟩ : MemBlock).ToInterface .bits64 (some (.struct 0))
      = .ok (.ptr ⟨.struct 0, 4096⟩) := by
  decide

/-- C11 (amended): for every string `s`, `Load(s)` and `Load` of a pointer to
`s` return a borrowed, not freed block at the string's bytes whose size is the
byte length of `s`; for non-empty `s` its byte-sequence projection has length
`len(s)`; for empty `s` every typed scalar projection and every typed sequence
projection fails with `SmallSize`, and so does `ToInterface` for every target
type whose view needs at least one byte (after unwrapping pointers: a scalar,
struct, array or string type whose byte size is at least 1 and at most the
largest `int`, or a slice whose element type has such a size). -/
theorem load_string (a : Arch) (data len addr : Nat) :
    Load a (.string data len) = .ok ⟨(len : Int), false, true, data⟩ ∧
    Load a (.ptr addr (.string data len)) = .ok ⟨(len : Int), false, true, data⟩ ∧
    (0 < len →
      (⟨(len : Int), false, true, data⟩ : MemBlock).ToByteSlice
        = .ok ⟨.scalar .Uint8, data, (len : Int), (len : Int)⟩) ∧
    (len = 0 →
      (∀ p : ScalarProj,
        p.run a (⟨(len : Int), false, true, data⟩ : MemBlock) = .error .SmallSize) ∧
      (∀ p : SliceProj,
        p.run a (⟨(len : Int), false, true, data⟩ : MemBlock) = .error .SmallSize) ∧
      (∀ t : RType, t.needsBytes a = true →
        (⟨(len : Int), false, true, data⟩ : MemBlock).ToInterface a (some t)
          = .err .SmallSize)) := by
  refine ⟨?_, ?_, fun h => ?_, fun h => ?_⟩
  · simp [Load, LoadSwitch, Value.Kind, Value.header]
  · simp [Load, LoadSwitch, Value.Kind, Value.headerAt, Value.header]
  · have h1 : ¬ ((len : Int) < 1) := by omega
    simp [MemBlock.ToByteSlice, h1]
  · exact empty_block_projections a _ rfl (by simp [h])

/-- Witness of C11: the string "1234" of `TestLoadString`, by value and
through a pointer. -/
theorem load_string_witness :
    Load .bits64 (.string 4096 4) = .ok ⟨4, false, true, 4096⟩ ∧
    Load .bits64 (.ptr 8192 (.string 4096 4)) = .ok ⟨4, false, true, 4096⟩ ∧
    (⟨4, false, true, 4096⟩ : MemBlock).ToByteSlice = .ok ⟨.scalar .Uint8, 4096, 4, 4⟩ :=
  ⟨(load_string .bits64 4096 4 8192).1, (load_string .bits64 4096 4 8192).2.1,
    (load_string .bits64 4096 4 8192).2.2.1 (by decide)⟩

/-- Counterexample to C12 as stated: on the 0-byte block `Alloc(0)` returns,
`ToInterface` with a function type fails with `UnsupportedValue`, not
`SmallSize`, and `ToInterface([0]int{})` succeeds. -/
theorem empty_block_counterexample :
    (Alloc bumpLibc .bits64 [] 0).1 = .ok ⟨0, false, false, 4096⟩ ∧
    (⟨0, false, false, 4096⟩ : MemBlock).ToInterface .bits64 (some .func)
      = .err .UnsupportedValue ∧
    (⟨0, false, false, 4096⟩ : MemBlock).ToInterface .bits64
      (some (.array 0 (.scalar .Int))) = .ok (.ptr ⟨.array 0 (.scalar .Int), 4096⟩) := by
  refine ⟨rfl, ?_, ?_⟩ <;> decide

/-- C12 (amended): on a block of size 0 that is not freed, every typed scalar
projection and every typed sequence projection fails with `SmallSize`, and
`ToInterface` fails with `SmallSize` for every target type whose view needs at
least one byte (after unwrapping pointers: a scalar, struct, array or string
type whose byte size is at least 1 and at most the largest `int`, or a slice
whose element type has such a size); for a channel, map, function or
interface target it fails with `UnsupportedValue`, and for a struct or array
target of size 0 it succeeds. -/
theorem empty_block_rejects (a : Arch) (b : MemBlock) (hb : b.freed = false)
    (hs : b.size = 0) :
    (∀ p : ScalarProj, p.run a b = .error .SmallSize) ∧
    (∀ p : SliceProj, p.run a b = .error .SmallSize) ∧
    (∀ t : RType, t.needsBytes a = true → b.ToInterface a (some t) = .err .SmallSize) ∧
    (∀ t : RType, unsupportedKind t.strip.Kind = true →
      b.ToInterface a (some t) = .err .UnsupportedValue) ∧
    (∀ t : RType, t.isFixed = true → t.Size a = 0 →
      b.ToInterface a (some t) = .ok (.ptr ⟨t, b.ptr⟩)) := by
  obtain ⟨h1, h2, h3⟩ := empty_block_projections a b hb hs
  refine ⟨h1, h2, h3, fun t ht => ?_, fun t ht h0 => ?_⟩
  · simp only [MemBlock.ToInterface, hb]
    exact ToInterfaceSwitch_unsupported a b t ht
  · simp only [MemBlock.ToInterface, hb]
    rw [ToInterfaceSwitch_fixed a b t ht, h0, toInt_zero, hs]
    simp

/-- Witness of C12: the 0-byte block of `Alloc(0)` asked for an `int32`, a
`[]byte` and, generically, a pointer to `uint16`. -/
theorem empty_block_rejects_witness :
    ScalarProj.ToInt32.run .bits64 ⟨0, false, false, 4096⟩ = .error .SmallSize ∧
    SliceProj.ToByteSlice.run .bits64 ⟨0, false, false, 4096⟩ = .error .SmallSize ∧
    (⟨0, false, false, 4096⟩ : MemBlock).ToInterface .bits64
      (some (.ptr (.scalar .Uint16))) = .err .SmallSize :=
  ⟨(empty_block_rejects .bits64 ⟨0, false, false, 4096⟩ rfl rfl).1 _,
    (empty_block_rejects .bits64 ⟨0, false, false, 4096⟩ rfl rfl).2.1 _,
    (empty_block_rejects .bits64 ⟨0, false, false, 4096⟩ rfl rfl).2.2.1 _ (by decide)⟩

/-- Counterexample to C13 as stated: on a 32-bit platform an 8-byte block
asked for a `[1 << 30]uint16`, a type of `2^31` bytes, is not refused with
`SmallSize`: line 140 compares 8 with `int(v.Size()) = -2^31` and
`ToInterface` returns a pointer of that type, for the array exemplar and for
a nil `*[1 << 30]uint16` exemplar alike. -/
theorem toInterface_fixed_counterexample :
    (⟨8, false, false, 4096⟩ : MemBlock).ToInterface .bits32
        (some (.array (2 ^ 30) (.scalar .Uint16)))
      = .ok (.ptr ⟨.array (2 ^ 30) (.scalar .Uint16), 4096⟩) ∧
    (⟨8, false, false, 4096⟩ : MemBlock).ToInterface .bits32
        (some (.ptr (.array (2 ^ 30) (.scalar .Uint16))))
      = .ok (.ptr ⟨.array (2 ^ 30) (.scalar .Uint16), 4096⟩) ∧
    (8 : Int) < ((RType.array (2 ^ 30) (.scalar .Uint16)).Size .bits32 : Int) := by
  decide

/-- C13 (amended): on a block that is not freed, `ToInterface` with a scalar,
struct or fixed-size array target type of byte size `N` compares the block
size with `N` converted to `int`: it returns `SmallSize` when the size is
smaller and otherwise a pointer of that type at the block's address; whenever
`N` is at most the largest `int` it returns `SmallSize` when `size < N` and
otherwise that pointer. -/
theorem toInterface_fixed (a : Arch) (b : MemBlock) (t : RType) (hb : b.freed = false)
    (ht : t.isFixed = true) :
    (b.size < toInt a (t.Size a) → b.ToInterface a (some t) = .err .SmallSize) ∧
    (toInt a (t.Size a) ≤ b.size → b.ToInterface a (some t) = .ok (.ptr ⟨t, b.ptr⟩)) ∧
    ((t.Size a : Int) ≤ a.maxInt →
      (b.size < (t.Size a : Int) → b.ToInterface a (some t) = .err .SmallSize) ∧
      ((t.Size a : Int) ≤ b.size → b.ToInterface a (some t) = .ok (.ptr ⟨t, b.ptr⟩))) := by
  have hsw : b.ToInterface a (some t) =
      if b.size < toInt a (t.Size a) then .err .SmallSize else .ok (.ptr ⟨t, b.ptr⟩) := by
    simp only [MemBlock.ToInterface, hb]
    exact ToInterfaceSwitch_fixed a b t ht
  have h1 : b.size < toInt a (t.Size a) → b.ToInterface a (some t) = .err .SmallSize := by
    intro h
    rw [hsw, if_pos h]
  have h2 : toInt a (t.Size a) ≤ b.size →
      b.ToInterface a (some t) = .ok (.ptr ⟨t, b.ptr⟩) := by
    intro h
    rw [hsw, if_neg (not_lt.2 h)]
  refine ⟨h1, h2, fun hfit => ?_⟩
  rw [toInt_of_le a _ hfit] at h1 h2
  exact ⟨h1, h2⟩

/-- Witness of C13: the 8-byte block adopted from an `int` on a 64-bit
platform, seen as `struct{A, B uint16}` (4 bytes), as `int` and as
`[2]uint16`. -/
theorem toInterface_fixed_witness :
    Load .bits64 (.ptr 4096 (.scalar .Int)) = .ok ⟨8, false, true, 4096⟩ ∧
    (⟨8, false, true, 4096⟩ : MemBlock).ToInterface .bits64 (some (.struct 4))
      = .ok (.ptr ⟨.struct 4, 4096⟩) ∧
    (⟨8, false, true, 4096⟩ : MemBlock).ToInterface .bits64 (some (.scalar .Int))
      = .ok (.ptr ⟨.scalar .Int, 4096⟩) ∧
    (⟨8, false, true, 4096⟩ : MemBlock).ToInterface .bits64
      (some (.array 2 (.scalar .Uint16))) = .ok (.ptr ⟨.array 2 (.scalar .Uint16), 4096⟩) :=
  ⟨by decide,
    ((toInterface_fixed .bits64 ⟨8, false, true, 4096⟩ (.struct 4) rfl rfl).2.2
      (by decide)).2 (by decide),
    ((toInterface_fixed .bits64 ⟨8, false, true, 4096⟩ (.scalar .Int) rfl rfl).2.2
      (by decide)).2 (by decide),
    ((toInterface_fixed .bits64 ⟨8, false, true, 4096⟩ (.array 2 (.scalar .Uint16)) rfl rfl).2.2
      (by decide)).2 (by decide)⟩

/-! ## Sequences of calls on one block -/

theorem LoadDefault_flags (a : Arch) (prev val : Value) (b : MemBlock)
    (h : LoadDefault a prev val = .ok b) : b.gcmanaged = true ∧ b.freed = false := by
  unfold LoadDefault at h
  by_cases hk : prev.Kind ≠ Kind.Ptr
  · simp [hk] at h
  · cases hsz : val.TypeSize a with
    | none => simp [hk, hsz] at h
    | some n =>
      simp only [hk, hsz, if_false, Outcome.ok.injEq] at h
      rw [← h]
      exact ⟨rfl, rfl⟩

theorem LoadSwitch_flags (a : Arch) (v : Value) :
    ∀ (prev : Value) (b : MemBlock), LoadSwitch a prev v = .ok b →
      b.gcmanaged = true ∧ b.freed = false := by
  induction v with
  | ptr addr pointee ih =>
    intro prev b h
    simp only [LoadSwitch] at h
    exact ih _ b h
  | zero => exact fun prev b h => LoadDefault_flags a prev .zero b h
  | scalar s => exact fun prev b h => LoadDefault_flags a prev (.scalar s) b h
  | struct size => exact fun prev b h => LoadDefault_flags a prev (.struct size) b h
  | array len elem =>
    intro prev b h
    simp only [LoadSwitch] at h
    by_cases hk : prev.Kind ≠ Kind.Ptr
    · simp [hk] at h
    · simp only [hk, if_false, Outcome.ok.injEq] at h
      rw [← h]
      exact ⟨rfl, rfl⟩
  | string data len =>
    intro prev b h
    simp only [LoadSwitch, Outcome.ok.injEq] at h
    rw [← h]
    exact ⟨rfl, rfl⟩
  | slice elem data len cap =>
    intro prev b h
    simp only [LoadSwitch, Outcome.ok.injEq] at h
    rw [← h]
    exact ⟨rfl, rfl⟩
  | chan => intro prev b h; simp [LoadSwitch] at h
  | map => intro prev b h; simp [LoadSwitch] at h
  | func => intro prev b h; simp [LoadSwitch] at h
  | iface => intro prev b h; simp [LoadSwitch] at h

theorem Load_flags (a : Arch) (v : Value) (b : MemBlock) (h : Load a v = .ok b) :
    b.gcmanaged = true ∧ b.freed = false :=
  LoadSwitch_flags a v .zero b h

theorem Alloc_ok (c : Libc) (a : Arch) (log log1 : List Call) (size : Int) (b : MemBlock)
    (h : Alloc c a log size = (.ok b, log1)) :
    b = ⟨size, false, false, c.calloc log (toSizeT a size) 1⟩ := by
  simp only [Alloc, alloc] at h
  by_cases hz : c.calloc log (toSizeT a size) 1 = 0
  · simp [hz] at h
  · simp only [hz, if_false, Prod.mk.injEq, Except.ok.injEq] at h
    exact h.1.symm

theorem Constructed_freed (c : Libc) (a : Arch) (b : MemBlock) (h : Constructed c a b) :
    b.freed = false := by
  rcases h with ⟨log, log1, size, h⟩ | ⟨log, log1, typ, size, h⟩ | ⟨v, h⟩
  · rw [Alloc_ok c a log log1 size b h]
  · cases typ with
    | none => simp [AllocArray] at h
    | some t => rw [AllocArray_ok c a log log1 t size b h]
  · exact (Load_flags a v b h).2

/-- What one call does to the block and the log: nothing, or (on an owning
block that is not freed) one `realloc` that keeps the flags, or one `free`
that sets the freed flag. -/
theorem applyOp_cases (c : Libc) (a : Arch) (s : MemBlock × List Call) (op : Op) :
    applyOp c a s op = s ∨
    (s.1.freed = false ∧ s.1.gcmanaged = false ∧
      (applyOp c a s op).1.freed = false ∧ (applyOp c a s op).1.gcmanaged = false ∧
      ∃ n, (applyOp c a s op).2 = s.2 ++ [Call.realloc s.1.ptr n]) ∨
    (s.1.freed = false ∧ s.1.gcmanaged = false ∧
      (applyOp c a s op).1.freed = true ∧ (applyOp c a s op).1.gcmanaged = false ∧
      (applyOp c a s op).2 = s.2 ++ [Call.free s.1.ptr]) := by
  rcases s with ⟨b, log⟩
  cases op with
  | scalar p => exact Or.inl rfl
  | slice p => exact Or.inl rfl
  | iface typ => exact Or.inl rfl
  | Free =>
    cases hf : b.freed
    · cases hg : b.gcmanaged
      · refine Or.inr (Or.inr ⟨rfl, rfl, ?_, ?_, ?_⟩) <;>
          simp [applyOp, Free_owning log b hf hg, hg]
      · exact Or.inl (by simp [applyOp, Free_noop log b (Or.inr hg)])
    · exact Or.inl (by simp [applyOp, Free_noop log b (Or.inl hf)])
  | Resize n =>
    cases hf : b.freed
    · cases hg : b.gcmanaged
      · refine Or.inr (Or.inl ⟨rfl, rfl, ?_, ?_, toSizeT a n, ?_⟩) <;>
          simp only [applyOp, Resize_owning c a log b n hf hg] <;>
          by_cases hz : c.realloc log b.ptr (toSizeT a n) = 0 <;> simp [hz, hf, hg]
      · exact Or.inl (by simp [applyOp, Resize_borrowed c a log b n hf hg])
    · exact Or.inl (by simp [applyOp, Resize_freed c a log b n hf])

theorem runOps_cons (c : Libc) (a : Arch) (s : MemBlock × List Call) (op : Op)
    (ops : List Op) : runOps c a s (op :: ops) = runOps c a (applyOp c a s op) ops := rfl

theorem runOps_append (c : Libc) (a : Arch) (s : MemBlock × List Call) (ops1 ops2 : List Op) :
    runOps c a s (ops1 ++ ops2) = runOps c a (runOps c a s ops1) ops2 := by
  simp [runOps, List.foldl_append]

theorem runOps_flags (c : Libc) (a : Arch) (ops : List Op) :
    ∀ s : MemBlock × List Call,
      (runOps c a s ops).1.gcmanaged = s.1.gcmanaged ∧
      (s.1.freed = true → (runOps c a s ops).1.freed = true) ∧
      ((s.1.gcmanaged = true → s.1.freed = false) →
        (runOps c a s ops).1.gcmanaged = true → (runOps c a s ops).1.freed = false) := by
  induction ops with
  | nil => exact fun s => ⟨rfl, fun h => h, fun h => h⟩
  | cons op ops ih =>
    intro s
    rw [runOps_cons]
    obtain ⟨h1, h2, h3⟩ := ih (applyOp c a s op)
    rcases applyOp_cases c a s op with h | ⟨hf, hg, hf1, hg1, _⟩ | ⟨hf, hg, hf1, hg1, _⟩
    · rw [h] at h1 h2 h3 ⊢
      exact ⟨h1, h2, h3⟩
    · refine ⟨by rw [h1, hg1, hg], fun h => ?_, fun _ => h3 (fun h => ?_)⟩
      · rw [hf] at h
        cases h
      · rw [hg1] at h
        cases h
    · refine ⟨by rw [h1, hg1, hg], fun h => ?_, fun _ => h3 (fun h => ?_)⟩
      · rw [hf] at h
        cases h
      · rw [hg1] at h
        cases h

/-- C14: in every state reached from a block returned by `Alloc`,
`AllocArray` or `Load` through any sequence of `Resize`, `Free` and projection
calls, a borrowed block is not freed, the borrowed flag is the one the block
was constructed with, and a freed flag that is set stays set through every
further call. -/
theorem flags_invariant (c : Libc) (a : Arch) (b0 : MemBlock) (log0 : List Call)
    (h0 : Constructed c a b0) (ops1 ops2 : List Op) :
    ((runOps c a (b0, log0) ops1).1.gcmanaged = true →
      (runOps c a (b0, log0) ops1).1.freed = false) ∧
    (runOps c a (b0, log0) ops1).1.gcmanaged = b0.gcmanaged ∧
    ((runOps c a (b0, log0) ops1).1.freed = true →
      (runOps c a (b0, log0) (ops1 ++ ops2)).1.freed = true) := by
  have hfreed := Constructed_freed c a b0 h0
  obtain ⟨h1, _, h3⟩ := runOps_flags c a ops1 (b0, log0)
  refine ⟨h3 (fun _ => hfreed), h1, fun h => ?_⟩
  rw [runOps_append]
  exact (runOps_flags c a ops2 (runOps c a (b0, log0) ops1)).2.1 h

/-- Witness of C14: the block of `Alloc(8)` resized, freed, and then resized
and freed again. -/
theorem flags_invariant_witness :
    (runOps bumpLibc .bits64 (⟨8, false, false, 4096⟩, [Call.calloc 8 1])
      [.Resize 4, .Free]).1.freed = true ∧
    (runOps bumpLibc .bits64 (⟨8, false, false, 4096⟩, [Call.calloc 8 1])
      ([.Resize 4, .Free] ++ [.Resize 16, .Free])).1.freed = true :=
  ⟨by decide,
    (flags_invariant bumpLibc .bits64 ⟨8, false, false, 4096⟩ [Call.calloc 8 1]
      (Or.inl ⟨[], [Call.calloc 8 1], 8, rfl⟩) [.Resize 4, .Free] [.Resize 16, .Free]).2.2
      (by decide)⟩

theorem runOps_calls (c : Libc) (a : Arch) (ops : List Op) :
    ∀ s : MemBlock × List Call, ∃ calls : List Call,
      (runOps c a s ops).2 = s.2 ++ calls ∧
      ((s.1.gcmanaged = true ∨ s.1.freed = true) → calls = []) ∧
      (calls.filter Call.isFree).length ≤ 1 ∧
      (∀ pre p post, calls = pre ++ Call.free p :: post → post = []) := by
  induction ops with
  | nil =>
    intro s
    refine ⟨[], by simp [runOps], fun _ => rfl, by simp, fun pre p post h => ?_⟩
    cases pre <;> simp at h
  | cons op ops ih =>
    intro s
    rw [runOps_cons]
    obtain ⟨calls, h1, h2, h3, h4⟩ := ih (applyOp c a s op)
    rcases applyOp_cases c a s op with h | ⟨hf, hg, hf1, hg1, n, hlog⟩ | ⟨hf, hg, hf1, hg1, hlog⟩
    · rw [h] at h1 h2 ⊢
      exact ⟨calls, h1, h2, h3, h4⟩
    · refine ⟨Call.realloc s.1.ptr n :: calls, by rw [h1, hlog]; simp, fun h => ?_, ?_,
        fun pre p post h => ?_⟩
      · rcases h with h | h
        · rw [hg] at h
          cases h
        · rw [hf] at h
          cases h
      · simpa [List.filter, Call.isFree] using h3
      · cases pre with
        | nil => simp at h
        | cons q pre =>
          simp only [List.cons_append, List.cons.injEq] at h
          exact h4 pre p post h.2
    · have hnil := h2 (Or.inr hf1)
      refine ⟨[Call.free s.1.ptr], by rw [h1, hlog, hnil]; simp, fun h => ?_,
        by simp [List.filter, Call.isFree], fun pre p post h => ?_⟩
      · rcases h with h | h
        · rw [hg] at h
          cases h
        · rw [hf] at h
          cases h
      · cases pre with
        | nil =>
          simp only [List.nil_append, List.cons.injEq] at h
          exact h.2.symm
        | cons q pre =>
          simp only [List.cons_append, List.cons.injEq] at h
          have := h.2
          cases pre <;> simp at this

/-- C16: over any sequence of `Resize`, `Free` and projection calls on one
block, the calls that reach the allocator contain at most one `free`; they are
empty when the block is borrowed (so for every block returned by `Load`) and
when it is already freed; nothing reaches the allocator after the `free`; and
a single `Resize` or `Free` on a borrowed or freed block adds no call. -/
theorem release_discipline (c : Libc) (a : Arch) (b0 : MemBlock) (log0 : List Call)
    (ops : List Op) :
    (∃ calls : List Call,
      (runOps c a (b0, log0) ops).2 = log0 ++ calls ∧
      (calls.filter Call.isFree).length ≤ 1 ∧
      (b0.gcmanaged = true → calls = []) ∧
      ((∃ v, Load a v = .ok b0) → calls = []) ∧
      (b0.freed = true → calls = []) ∧
      (∀ pre p post, calls = pre ++ Call.free p :: post → post = [])) ∧
    (∀ (b : MemBlock) (log : List Call) (n : Int),
      (b.gcmanaged = true ∨ b.freed = true) →
        (b.Resize c a log n).2.2 = log ∧ (b.Free log).2 = log) := by
  refine ⟨?_, fun b log n h => ?_⟩
  · obtain ⟨calls, h1, h2, h3, h4⟩ := runOps_calls c a ops (b0, log0)
    refine ⟨calls, h1, h3, fun h => h2 (Or.inl h), ?_, fun h => h2 (Or.inr h), h4⟩
    rintro ⟨v, hv⟩
    exact h2 (Or.inl (Load_flags a v b0 hv).1)
  · cases hf : b.freed
    · have hg : b.gcmanaged = true := by
        rcases h with h | h
        · exact h
        · rw [hf] at h
          cases h
      rw [Resize_borrowed c a log b n hf hg, Free_noop log b (Or.inr hg)]
      exact ⟨rfl, rfl⟩
    · rw [Resize_freed c a log b n hf, Free_noop log b (Or.inl hf)]
      exact ⟨rfl, rfl⟩

/-- An example for C16: on the block of `Alloc(8)`, resizing, freeing twice
and resizing again reaches the allocator with one `realloc` and one `free`. -/
theorem release_discipline_example :
    (runOps bumpLibc .bits64 (⟨8, false, false, 4096⟩, [Call.calloc 8 1])
      [.Resize 4, .Free, .Free, .Resize 16, .slice .ToByteSlice]).2
      = [Call.calloc 8 1] ++ [Call.realloc 4096 4, Call.free 8192] := by
  decide

/-! ## Pointer unwrapping -/

theorem ToInterfaceSwitch_wrap (a : Arch) (b : MemBlock) (t : RType) (k : Nat) :
    b.ToInterfaceSwitch a (RType.wrap k t) = b.ToInterfaceSwitch a t := by
  induction k with
  | zero => rfl
  | succ k ih =>
    simp only [RType.wrap, MemBlock.ToInterfaceSwitch]
    exact ih

/-- C17: `ToInterface` given a `k`-level pointer to a type `T` returns exactly
what it returns given `T` itself, for every block, every `T` and every `k`:
the same view (same type, same address, same element count), the same error,
or the same fault. -/
theorem toInterface_unwraps_pointers (a : Arch) (b : MemBlock) (t : RType) (k : Nat) :
    b.ToInterface a (some (RType.wrap k t)) = b.ToInterface a (some t) := by
  simp only [MemBlock.ToInterface, ToInterfaceSwitch_wrap]

theorem LoadSwitch_ptr (a : Arch) (prev : Value) (addr : Nat) (x : Value) :
    LoadSwitch a prev (.ptr addr x) = LoadSwitch a (.ptr addr x) x := by
  simp only [LoadSwitch]

theorem wrap_snoc_ptr (pre : List Nat) (last : Nat) (x : Value) :
    ∃ q y, Value.wrap (pre ++ [last]) x = .ptr q y := by
  cases pre with
  | nil => exact ⟨last, x, rfl⟩
  | cons p pre => exact ⟨p, Value.wrap (pre ++ [last]) x, rfl⟩

theorem Load_wrap_snoc (a : Arch) (x : Value) (last : Nat) (pre : List Nat) :
    Load a (Value.wrap (pre ++ [last]) x) = Load a (.ptr last x) := by
  induction pre with
  | nil => rfl
  | cons p pre ih =>
    obtain ⟨q, y, hq⟩ := wrap_snoc_ptr pre last x
    have h1 : Load a (Value.wrap (p :: pre ++ [last]) x)
        = LoadSwitch a (.ptr p (Value.wrap (pre ++ [last]) x)) (Value.wrap (pre ++ [last]) x) :=
      LoadSwitch_ptr a .zero p _
    rw [h1, ← ih]
    unfold Load
    rw [hq, LoadSwitch_ptr, LoadSwitch_ptr]

theorem Load_ptr_blockSize (a : Arch) (x : Value) (p q : Nat) :
    (Load a (.ptr p x)).blockSize = (Load a (.ptr q x)).blockSize := by
  unfold Load
  rw [LoadSwitch_ptr, LoadSwitch_ptr]
  cases x with
  | ptr r y => rw [LoadSwitch_ptr, LoadSwitch_ptr]
  | zero => rfl
  | scalar s => rfl
  | struct size => rfl
  | array len elem => rfl
  | string data len => rfl
  | slice elem data len cap => rfl
  | chan => rfl
  | map => rfl
  | func => rfl
  | iface => rfl

theorem LoadSwitch_wrap_slice (a : Arch) (elem : RType) (data len cap : Nat)
    (addrs : List Nat) :
    ∀ prev : Value, LoadSwitch a prev (Value.wrap addrs (.slice elem data len cap))
      = .ok ⟨(cap : Int), false, true, data⟩ := by
  induction addrs with
  | nil => exact fun prev => rfl
  | cons p addrs ih =>
    intro prev
    simp only [Value.wrap, LoadSwitch]
    exact ih _

/-- C18: `Load` of a chain of `k ≥ 1` pointers ending at `x` returns exactly
what `Load` of the innermost pointer to `x` returns (same block or same error
or same fault), which has the same outcome and the same block size as `Load`
of any single pointer to `x`; and when `x` is a slice, `Load` through any
number of pointers returns the block that `Load(x)` returns. -/
theorem load_unwraps_pointers (a : Arch) (x : Value) (pre : List Nat) (last addr : Nat) :
    Load a (Value.wrap (pre ++ [last]) x) = Load a (.ptr last x) ∧
    (Load a (Value.wrap (pre ++ [last]) x)).blockSize = (Load a (.ptr addr x)).blockSize ∧
    (∀ (elem : RType) (data len cap : Nat) (addrs : List Nat),
      Load a (Value.wrap addrs (.slice elem data len cap))
        = Load a (.slice elem data len cap)) := by
  refine ⟨Load_wrap_snoc a x last pre, ?_, fun elem data len cap addrs => ?_⟩
  · rw [Load_wrap_snoc a x last pre]
    exact Load_ptr_blockSize a x last addr
  · exact LoadSwitch_wrap_slice a elem data len cap addrs .zero

/-- An example for C18: `Load(b)` and `Load(&b)` of a 4-byte slice give the
same block, hence the same `int32` view. -/
theorem load_unwraps_pointers_example :
    Load .bits64 (Value.wrap [8192] (.slice (.scalar .Uint8) 4096 4 4))
      = Load .bits64 (.slice (.scalar .Uint8) 4096 4 4) ∧
    Load .bits64 (.slice (.scalar .Uint8) 4096 4 4) = .ok ⟨4, false, true, 4096⟩ ∧
    (⟨4, false, true, 4096⟩ : MemBlock).ToInt32 = .ok ⟨.scalar .Int32, 4096⟩ :=
  ⟨(load_unwraps_pointers .bits64 .zero [] 0 0).2.2 _ _ _ _ _, rfl, rfl⟩

/-! ## Faults -/

/-- C19 (the code at the failing inputs): `ToInterface([]struct{}{})` on a
live 8-byte block divides by the element size 0 and panics, as it does for
every live block and every slice type with a zero-size element; `Load` of a
nil pointer calls `Type()` on the zero Value and panics. -/
theorem faults_at_failing_inputs :
    (⟨8, false, false, 4096⟩ : MemBlock).ToInterface .bits64 (some (.slice (.struct 0)))
      = .panic ∧
    Load .bits64 (.ptr 0 .zero) = .panic ∧
    (∀ (a : Arch) (b : MemBlock) (elem : RType), b.freed = false → elem.Size a = 0 →
      b.ToInterface a (some (.slice elem)) = .panic) ∧
    (∀ (a : Arch) (addr : Nat), Load a (.ptr addr .zero) = .panic) := by
  refine ⟨by decide, by decide, fun a b elem hb h0 => ?_, fun a addr => ?_⟩
  · simp [MemBlock.ToInterface, MemBlock.ToInterfaceSwitch, RType.elemOf, hb, h0, toInt_zero]
  · simp [Load, LoadSwitch, LoadDefault, Value.Kind, Value.TypeSize]

/-! ## Generic and typed sequence projections -/

theorem tdiv_eq_zero_iff_lt (x w : Int) (hx : 0 ≤ x) (hw : 0 < w) :
    Int.tdiv x w = 0 ↔ x < w := by
  constructor
  · intro h
    by_contra hlt
    have := tdiv_pos_of_le x w hw (not_lt.1 hlt)
    omega
  · exact Int.tdiv_eq_zero_of_lt hx

theorem sliceProj_toInt_elem (a : Arch) (p : SliceProj) :
    toInt a (p.elem.Size a) = p.width a := by
  rw [← sliceProj_elem_size]
  cases p <;> exact toInt_scalar_size a _

/-- Counterexample to C20 as stated: on a 32-bit platform `Load` of a pointer
to a struct of `2^31` bytes returns a block of size `-2^31`; on that block
`ToInterface([]uint16)` returns a slice of length `-2^30`, because
`size / 2` is not 0, while `ToUInt16Slice` fails with `SmallSize`, because
`size < 2`. -/
theorem generic_agrees_with_typed_counterexample :
    Load .bits32 (.ptr 4096 (.struct (2 ^ 31))) = .ok ⟨-2147483648, false, true, 4096⟩ ∧
    (⟨-2147483648, false, true, 4096⟩ : MemBlock).ToInterface .bits32
        (some (.slice (.scalar .Uint16)))
      = .ok (.slice ⟨.scalar .Uint16, 4096, -1073741824, -1073741824⟩) ∧
    SliceProj.ToUInt16Slice.run .bits32 ⟨-2147483648, false, true, 4096⟩
      = .error .SmallSize ∧
    ¬ (Int.tdiv (-2147483648) (SliceProj.ToUInt16Slice.width .bits32) = 0 ↔
      (-2147483648 : Int) < SliceProj.ToUInt16Slice.width .bits32) := by
  refine ⟨by decide, by decide, rfl, by decide⟩

/-- C20 (amended): for every block of non-negative size, freed or not, and
every typed sequence projection with element type `T` of width `W`,
`ToInterface` with target `[]T` returns exactly what the typed projection
returns: the same error when either fails, the same slice (element type,
address, length, capacity) when they succeed; the generic test
`size / W == 0` holds exactly when the typed test `size < W` does. -/
theorem generic_agrees_with_typed (a : Arch) (b : MemBlock) (p : SliceProj)
    (hs : 0 ≤ b.size) :
    b.ToInterface a (some (.slice p.elem)) = Outcome.ofSlice (p.run a b) ∧
    (Int.tdiv b.size (p.width a) = 0 ↔ b.size < p.width a) := by
  have hw := sliceProj_width_pos a p
  have hiff := tdiv_eq_zero_iff_lt b.size (p.width a) hs hw
  refine ⟨?_, hiff⟩
  rw [sliceProj_run_eq]
  cases hf : b.freed
  · have he : ¬ (p.width a = 0) := by omega
    by_cases hlt : b.size < p.width a
    · rw [sliceAt_small _ _ b hf hlt]
      simp only [MemBlock.ToInterface, hf, MemBlock.ToInterfaceSwitch, RType.elemOf]
      rw [sliceProj_toInt_elem]
      simp [he, hiff.2 hlt, Outcome.ofSlice]
    · rw [sliceAt_fits _ _ b hf (not_lt.1 hlt)]
      simp only [MemBlock.ToInterface, hf, MemBlock.ToInterfaceSwitch, RType.elemOf]
      rw [sliceProj_toInt_elem]
      have hne : ¬ (Int.tdiv b.size (p.width a) = 0) := fun h => hlt (hiff.1 h)
      simp [he, hne, Outcome.ofSlice]
  · rw [sliceAt_freed _ _ b hf]
    simp [MemBlock.ToInterface, hf, Outcome.ofSlice]

/-- Witness of C20: the 8-byte block adopted from an `int` in
`TestToInterface`, seen through `ToInterface([]uint16)` and `ToUInt16Slice`. -/
theorem generic_agrees_with_typed_witness :
    (⟨8, false, true, 4096⟩ : MemBlock).ToInterface .bits64 (some (.slice (.scalar .Uint16)))
      = .ok (.slice ⟨.scalar .Uint16, 4096, 4, 4⟩) ∧
    (⟨8, false, true, 4096⟩ : MemBlock).ToInterface .bits64
      (some (.slice SliceProj.ToUInt16Slice.elem))
      = Outcome.ofSlice (SliceProj.ToUInt16Slice.run .bits64 ⟨8, false, true, 4096⟩) :=
  ⟨by decide,
    (generic_agrees_with_typed .bits64 ⟨8, false, true, 4096⟩ .ToUInt16Slice (by decide)).1⟩

/-! ## Block sizes are not negative -/

theorem toSizeT_of_neg (a : Arch) (x : Int) (h1 : a.minInt ≤ x) (h2 : x < 0) :
    2 ^ (a.bits - 1) ≤ toSizeT a x := by
  cases a <;>
    simp only [toSizeT, Arch.bits, Arch.wordSize, Arch.minInt] at h1 ⊢ <;>
    norm_num at h1 ⊢ <;> omega

theorem wrapInt_ge (a : Arch) (x : Int) : a.minInt ≤ wrapInt a x := by
  cases a <;>
    simp only [wrapInt, Arch.bits, Arch.wordSize, Arch.minInt] <;>
    norm_num <;> omega

theorem header_Len_nonneg (v : Value) : 0 ≤ v.header.Len ∧ 0 ≤ v.headerAt.Len := by
  constructor
  · cases v <;> simp [Value.header]
  · cases v with
    | ptr addr pointee => cases pointee <;> simp [Value.headerAt, Value.header]
    | _ => simp [Value.headerAt]

theorem LoadSwitch_size_nonneg (a : Arch) (v : Value) :
    ∀ (prev : Value) (b : MemBlock),
      (∀ n, v.strip.TypeSize a = some n → (n : Int) ≤ a.maxInt) →
      LoadSwitch a prev v = .ok b → 0 ≤ b.size := by
  have hdef : ∀ (prev val : Value) (b : MemBlock),
      (∀ n, val.TypeSize a = some n → (n : Int) ≤ a.maxInt) →
      LoadDefault a prev val = .ok b → 0 ≤ b.size := by
    intro prev val b hfit h
    unfold LoadDefault at h
    by_cases hk : prev.Kind ≠ Kind.Ptr
    · simp [hk] at h
    · cases hsz : val.TypeSize a with
      | none => simp [hk, hsz] at h
      | some n =>
        simp only [hk, hsz, if_false, Outcome.ok.injEq] at h
        rw [← h]
        show 0 ≤ toInt a n
        rw [toInt_of_le a n (hfit n hsz)]
        exact Int.ofNat_nonneg n
  induction v with
  | ptr addr pointee ih =>
    intro prev b hfit h
    simp only [LoadSwitch] at h
    exact ih _ b hfit h
  | zero => exact fun prev b hfit h => hdef prev .zero b hfit h
  | scalar s => exact fun prev b hfit h => hdef prev (.scalar s) b hfit h
  | struct size => exact fun prev b hfit h => hdef prev (.struct size) b hfit h
  | array len elem =>
    intro prev b _ h
    simp only [LoadSwitch] at h
    by_cases hk : prev.Kind ≠ Kind.Ptr
    · simp [hk] at h
    · simp only [hk, if_false, Outcome.ok.injEq] at h
      rw [← h]
      exact Int.ofNat_nonneg len
  | string data len =>
    intro prev b _ h
    simp only [LoadSwitch, Outcome.ok.injEq] at h
    rw [← h]
    split
    · exact (header_Len_nonneg _).1
    · exact (header_Len_nonneg _).2
  | slice elem data len cap =>
    intro prev b _ h
    simp only [LoadSwitch, Outcome.ok.injEq] at h
    rw [← h]
    exact Int.ofNat_nonneg cap
  | chan => intro prev b _ h; simp [LoadSwitch] at h
  | map => intro prev b _ h; simp [LoadSwitch] at h
  | func => intro prev b _ h; simp [LoadSwitch] at h
  | iface => intro prev b _ h; simp [LoadSwitch] at h

/-- With an allocator that refuses requests above the largest `int`, every
block that `Alloc`, `AllocArray` or `Resize` builds (from `int` arguments) has
a size that is not negative, and so has every block `Load` builds from a
value whose pointee type is at most the largest `int` of bytes. -/
theorem size_nonneg (c : Libc) (a : Arch) (hc : c.refusesHuge a) :
    (∀ (log log1 : List Call) (size : Int) (b : MemBlock), a.minInt ≤ size →
      Alloc c a log size = (.ok b, log1) → 0 ≤ b.size) ∧
    (∀ (log log1 : List Call) (typ : Option RType) (size : Int) (b : MemBlock),
      AllocArray c a log typ size = (.ok b, log1) → 0 ≤ b.size) ∧
    (∀ (v : Value) (b : MemBlock),
      (∀ n, v.strip.TypeSize a = some n → (n : Int) ≤ a.maxInt) →
      Load a v = .ok b → 0 ≤ b.size) ∧
    (∀ (log log1 : List Call) (b b1 : MemBlock) (n : Int), a.minInt ≤ n →
      b.Resize c a log n = (none, b1, log1) → 0 ≤ b1.size) := by
  refine ⟨fun log log1 size b h1 h => ?_, fun log log1 typ size b h => ?_,
    fun v b hfit h => LoadSwitch_size_nonneg a v .zero b hfit h,
    fun log log1 b b1 n h1 h => ?_⟩
  · by_contra hneg
    have hb := Alloc_ok c a log log1 size b h
    have hsz : b.size = size := by rw [hb]
    have hz := (hc log _ (toSizeT_of_neg a size h1 (by omega))).1
    simp [Alloc, alloc, hz] at h
  · cases typ with
    | none => simp [AllocArray] at h
    | some t =>
      by_contra hneg
      have hb := AllocArray_ok c a log log1 t size b h
      have hsz : b.size = wrapInt a (size * (t.Size a : Int)) := by rw [hb]
      have hz := (hc log _ (toSizeT_of_neg a (wrapInt a (size * (t.Size a : Int)))
        (wrapInt_ge a _) (by omega))).1
      simp [AllocArray, alloc, hz] at h
  · by_contra hneg
    have hst := Resize_ok_state c a log b b1 n log1 h
    have hz := (hc log _ (toSizeT_of_neg a n h1 (by omega))).2 b.ptr
    rw [Resize_owning c a log b n hst.2.2.2.1 hst.2.2.2.2] at h
    simp [hz] at h

/-- The example allocator `cappedLibc` refuses huge requests, and grants
`Alloc(8)` a block of size 8. -/
theorem size_nonneg_example :
    (cappedLibc .bits64).refusesHuge .bits64 ∧
    Alloc (cappedLibc .bits64) .bits64 [] 8 = (.ok ⟨8, false, false, 4096⟩, [Call.calloc 8 1]) ∧
    (0 : Int) ≤ (⟨8, false, false, 4096⟩ : MemBlock).size := by
  have hc : (cappedLibc .bits64).refusesHuge .bits64 := by
    intro log n hn
    simp [cappedLibc, hn]
  exact ⟨hc, rfl, (size_nonneg (cappedLibc .bits64) .bits64 hc).1 [] [Call.calloc 8 1] 8 _
    (by decide) rfl⟩

end Goalloc
